import Mathlib

/-!
Verification development for the cloudflow manifest-resolver and
permission/resource/event reachability engine.

The Lean definitions below are shallow embeddings of the Python sources:

* `cloudflow/utils/awsarnprocessingreslib.py` (ARN sanitization, validation),
* `cloudflow/modules/permissionsreslib.py` (service-level and resource-level
  permission analysis, permission extraction),
* `cloudflow/modules/pluginprocessingreslib.py` (plugin data structure and
  plugin manager),
* `cloudflow/modules/eventfilteringreslib.py` (event filtering),
* `cloudflow/modules/customresolverreslib.py` (YAML template resolver).

Python dictionaries that the code iterates in insertion order are embedded as
association lists (`List (key × value)`, keys assumed distinct, lookup returns
the first binding); Python `set`s whose iteration order is never observable in
the modelled code are embedded as `Finset`s.  Fallible code (uncaught Python
exceptions) is embedded with `Option`: a `none` result models an exception
propagating past the modelled function.  External collaborators that perform
file or AST I/O (the program-structure parser, the environment-inspection
collaborator, the external-file includer) are embedded as explicit data or
oracle parameters; this is documented at each definition.
-/

namespace Cloudflow

/-! ### Generic character/string helpers used by several embeddings -/

/-- `leadMatch pat l` is true when the list `l` starts with `pat`
(character-by-character).  This is the building block for the substring and
`startswith` tests performed by the Python sources via `re.search` and
`str.startswith`. -/
def leadMatch : List Char → List Char → Bool
  | [], _ => true
  | _ :: _, [] => false
  | a :: as, b :: bs => a == b && leadMatch as bs

/-- `hasSub pat l` is true when `pat` occurs as a contiguous substring of `l`
(the semantics of `re.search` with a literal pattern returning a match). -/
def hasSub (pat : List Char) : List Char → Bool
  | [] => leadMatch pat []
  | c :: cs => leadMatch pat (c :: cs) || hasSub pat cs

/-- String-level wrapper of `hasSub`. -/
def hasSubStr (pat s : String) : Bool := hasSub pat.data s.data

/-- Python `str.split(sep)` for a one-character separator, on character
lists: `"a::b" ↦ ["a", "", "b"]`, `"" ↦ [""]`. -/
def splitOnChar (sep : Char) : List Char → List (List Char)
  | [] => [[]]
  | c :: rest =>
    if c = sep then [] :: splitOnChar sep rest
    else
      match splitOnChar sep rest with
      | h :: t => (c :: h) :: t
      | [] => [[c]]

/-- Python `str.split(sep)` for a one-character separator, on strings. -/
def pySplit (sep : Char) (s : String) : List String :=
  (splitOnChar sep s.data).map (fun l => ⟨l⟩)

/-- Python `str.startswith`. -/
def pyStartsWith (s pat : String) : Bool := leadMatch pat.data s.data

/-- Python `str.endswith`. -/
def pyEndsWith (s pat : String) : Bool :=
  leadMatch pat.data.reverse s.data.reverse

/-- Python `str.strip()` on character lists (whitespace removal at both
ends). -/
def trimChars (l : List Char) : List Char :=
  ((l.dropWhile Char.isWhitespace).reverse.dropWhile Char.isWhitespace).reverse

/-- Python `str.strip()` on strings. -/
def pyStrip (s : String) : String := ⟨trimChars s.data⟩

/-- Python `c in s` (single-character membership). -/
def pyHasChar (c : Char) (s : String) : Bool := s.data.contains c

/-! ### ARN processing (`cloudflow/utils/awsarnprocessingreslib.py`)

`AWSARNManagerCls.__init__` first sanitizes the user-provided ARN
(`_sanitize_arn`, the regex `#\{(?P<provider>\w+)::(?P<parameter>\w+)\}` is
replaced by `provider ++ parameter`), then validates it (`_validate_arn`). -/

/-- `\w` of the Python `re` module on ASCII input: letters, digits, `_`. -/
def isWordChar (c : Char) : Bool := c.isAlphanum || c == '_'

/-- Attempt to match the regex `#\{\w+::\w+\}` at the head of `l`
(`_sanitize_arn`).  On success, returns the replacement text
(`provider ++ parameter`) and the remaining input after the match. -/
def tryParamAt (l : List Char) : Option (List Char × List Char) :=
  match l with
  | c1 :: c2 :: rest =>
    if c1 = '#' ∧ c2 = '{' then
      match rest.dropWhile isWordChar with
      | ':' :: ':' :: r2 =>
        if (rest.takeWhile isWordChar).isEmpty then none
        else
          match r2.dropWhile isWordChar with
          | '}' :: r4 =>
            if (r2.takeWhile isWordChar).isEmpty then none
            else some (rest.takeWhile isWordChar ++ r2.takeWhile isWordChar, r4)
          | _ => none
      | _ => none
    else none
  | _ => none

theorem tryParamAt_length {l : List Char} {r rest : List Char}
    (h : tryParamAt l = some (r, rest)) : rest.length < l.length := by
  match l with
  | [] => simp [tryParamAt] at h
  | [c] => simp [tryParamAt] at h
  | c1 :: c2 :: tl =>
    simp only [tryParamAt] at h
    split at h
    · split at h
      · rename_i r2 hr1
        split at h
        · exact absurd h (by simp)
        · split at h
          · rename_i r4 hr3
            split at h
            · exact absurd h (by simp)
            · simp only [Option.some.injEq, Prod.mk.injEq] at h
              obtain ⟨-, hrest⟩ := h
              subst hrest
              have hA : (tl.dropWhile isWordChar).length ≤ tl.length :=
                (tl.dropWhile_sublist isWordChar).length_le
              have hB : r2.length + 2 = (tl.dropWhile isWordChar).length := by
                rw [hr1]; simp only [List.length_cons]
              have hC : (r2.dropWhile isWordChar).length ≤ r2.length :=
                (r2.dropWhile_sublist isWordChar).length_le
              have hD : r4.length + 1 = (r2.dropWhile isWordChar).length := by
                rw [hr3]; simp only [List.length_cons]
              simp only [List.length_cons]
              omega
          · exact absurd h (by simp)
      · exact absurd h (by simp)
    · exact absurd h (by simp)

/-- Fuel-driven evaluator for the global left-to-right, non-overlapping
substitution of `#\{\w+::\w+\}` performed by `re.sub` in `_sanitize_arn`.
Each step consumes at least one input character, so `l.length` fuel always
suffices (`sanitizeGo_congr`/`sanitizeChars_eq` below). -/
def sanitizeGo : Nat → List Char → List Char
  | 0, l => l
  | fuel + 1, l =>
    match tryParamAt l with
    | some (r, rest) => r ++ sanitizeGo fuel rest
    | none =>
      match l with
      | [] => []
      | c :: cs => c :: sanitizeGo fuel cs

/-- Global substitution of `#\{\w+::\w+\}` by `provider ++ parameter`
(`re.sub` in `_sanitize_arn`). -/
def sanitizeChars (l : List Char) : List Char := sanitizeGo l.length l

theorem sanitizeGo_congr :
    ∀ (n m : Nat) (l : List Char), l.length ≤ n → l.length ≤ m →
      sanitizeGo n l = sanitizeGo m l := by
  intro n
  induction n with
  | zero =>
    intro m l hn _
    have : l = [] := List.eq_nil_of_length_eq_zero (Nat.le_zero.mp hn)
    subst this
    cases m <;> simp [sanitizeGo, tryParamAt]
  | succ n ih =>
    intro m l hn hm
    cases l with
    | nil => cases m <;> simp [sanitizeGo, tryParamAt]
    | cons c cs =>
      cases m with
      | zero => simp at hm
      | succ m =>
        simp only [sanitizeGo]
        cases htry : tryParamAt (c :: cs) with
        | some pr =>
          obtain ⟨r, rest⟩ := pr
          have hlt := tryParamAt_length htry
          simp only [List.length_cons] at hlt hn hm
          simp only [htry]
          rw [ih m rest (by omega) (by omega)]
        | none =>
          simp only [List.length_cons] at hn hm
          simp only [htry]
          rw [ih m cs (by omega) (by omega)]

/-- Fidelity of the fuel-driven evaluator: `sanitizeChars` satisfies exactly
the recursion performed by `re.sub`'s left-to-right scan — replace a match
and continue after it, otherwise keep one character and continue. -/
theorem sanitizeChars_eq (l : List Char) :
    sanitizeChars l =
      match tryParamAt l with
      | some (r, rest) => r ++ sanitizeChars rest
      | none =>
        match l with
        | [] => []
        | c :: cs => c :: sanitizeChars cs := by
  cases l with
  | nil => simp [sanitizeChars, sanitizeGo, tryParamAt]
  | cons c cs =>
    unfold sanitizeChars
    simp only [List.length_cons, sanitizeGo]
    cases htry : tryParamAt (c :: cs) with
    | some pr =>
      obtain ⟨r, rest⟩ := pr
      have hlt := tryParamAt_length htry
      simp only [List.length_cons] at hlt
      simp only [htry]
      rw [sanitizeGo_congr cs.length rest.length rest (by omega) (by omega)]
    | none =>
      simp only [htry]

/-- `AWSARNManagerCls._sanitize_arn`. -/
def sanitize_arn (s : String) : String := ⟨sanitizeChars s.data⟩

/-- `AWSARNDataCls`: the five parts of an ARN, all defaulting to `""`. -/
structure AWSARNDataCls where
  partition : String := ""
  service : String := ""
  region : String := ""
  account_id : String := ""
  resource_id : String := ""
deriving DecidableEq, Repr

/-- `AWSARNDataCls.is_default`: all fields hold the default empty string. -/
def AWSARNDataCls.is_default (d : AWSARNDataCls) : Bool :=
  d.partition == "" && d.service == "" && d.region == "" &&
    d.account_id == "" && d.resource_id == ""

/-- `AWSARNManagerCls._validate_arn` applied to the already sanitized ARN:
split on `':'`; on exactly `arn_parts_num = 6` parts, drop the first part and
fill the data class with the remaining five; otherwise (the raised
`ValueError` is caught) keep the all-default data class. -/
def validate_arn (sanitized : String) : AWSARNDataCls :=
  let arn_parts := pySplit ':' sanitized
  if arn_parts.length = 6 then
    { partition := arn_parts.getD 1 "", service := arn_parts.getD 2 "",
      region := arn_parts.getD 3 "", account_id := arn_parts.getD 4 "",
      resource_id := arn_parts.getD 5 "" }
  else
    {}

/-- The ARN data held by `AWSARNManagerCls` after construction
(sanitization followed by validation). -/
def mkARN (arn : String) : AWSARNDataCls := validate_arn (sanitize_arn arn)

/-- `AWSARNManagerCls.is_valid`. -/
def arn_is_valid (arn : String) : Bool := !(mkARN arn).is_default

theorem exists_six_of_length_six {α : Type} {l : List α} (h : l.length = 6) :
    ∃ a b c d e f, l = [a, b, c, d, e, f] := by
  rcases l with _ | ⟨a, l⟩
  · simp at h
  rcases l with _ | ⟨b, l⟩
  · simp at h
  rcases l with _ | ⟨c, l⟩
  · simp at h
  rcases l with _ | ⟨d, l⟩
  · simp at h
  rcases l with _ | ⟨e, l⟩
  · simp at h
  rcases l with _ | ⟨f, l⟩
  · simp at h
  rcases l with _ | ⟨g, l⟩
  · exact ⟨a, b, c, d, e, f, rfl⟩
  · simp only [List.length_cons] at h; omega

/-! ### Resource-level permission analysis
(`cloudflow/modules/permissionsreslib.py`, `analyse_resource_level_permissions`)

`perm_res_dict` is a Python dict mapping resource-identifier strings to sets
of `(service, action)` pairs; the analysis iterates it in insertion order, so
it is embedded as an association list with distinct keys.  Python sets of
pairs become `Finset`s (their iteration order is not observable here). -/

/-- Python `dict[key]` lookup on an association list (first binding wins;
with distinct keys this is exactly dict lookup), `none` for a missing key. -/
def lookupA {β : Type} (k : String) : List (String × β) → Option β
  | [] => none
  | (k', v) :: rest => if k' = k then some v else lookupA k rest

/-- The embedded `perm_res_dict`. -/
abbrev PermResDict := List (String × Finset (String × String))

/-- Nested function `extract_permission_set`: the set of actions registered
in `permission_resource_dict[resource]` for the given service.  The source
indexes the dict directly; every call site passes a key that is present, so
the `none` default is never observed. -/
def extract_permission_set (resource : String) (d : PermResDict)
    (service : String) : Finset String :=
  match lookupA resource d with
  | some perm_tuples => (perm_tuples.filter (fun t => t.1 = service)).image (fun t => t.2)
  | none => ∅

/-- Nested function `get_close_match`: scan the dict in insertion order; for
each key, build its ARN (`AWSARNManagerCls(resource)`, i.e. sanitize then
validate) and return the first key whose ARN service equals the target
service and whose `resource_id` either equals the candidate exactly or, when
it contains `'/'`, has the candidate among its `'/'`-separated segments.
Falling off the loop returns Python `None`. -/
def get_close_match (resource_to_match : String) (d : PermResDict)
    (service : String) : Option String :=
  match d with
  | [] => none
  | (resource, _) :: rest =>
    if (mkARN resource).service == service &&
        ((mkARN resource).resource_id == resource_to_match ||
          (pyHasChar '/' (mkARN resource).resource_id &&
            (pySplit '/' (mkARN resource).resource_id).contains resource_to_match)) then
      some resource
    else get_close_match resource_to_match rest service

/-- `check_if_resolved` (`customresolverreslib.py`) applied to
`perm_res_dict`: iterating a Python dict iterates its keys, so the call
returns true iff no resource key contains the substring `${`. -/
def check_if_resolved (d : PermResDict) : Bool :=
  d.all (fun kv => !(hasSubStr "$\x7b" kv.1))

/-- The AST node extracted for one resource-identifying argument of the API
call, together with the outcome of the external collaborators that the
analysis consults for it (spec §6):
* `strLit s` — an `ast.Constant` holding the string literal `s`;
* `nonLit r` — any other node; `r` is the result of `inspect_ast_node`
  (the environment-inspection collaborator): `some v` when it resolves the
  node to the string `v`, `none` when it returns Python `None`. -/
inductive ASTArg where
  | strLit (s : String)
  | nonLit (resolved : Option String)

/-- PART 3 of the per-argument loop body: the boolean added to
`permission_results` once a close match has been attempted for an argument
whose value was obtained. -/
def match_result (req : Finset String) (d : PermResDict) (service : String) :
    Option String → Bool
  | some resource_match =>
    decide (extract_permission_set resource_match d service ∩ req ≠ ∅)
  | none => !(check_if_resolved d)

/-- The list of booleans accumulated in `permission_results` by the main
loop of `analyse_resource_level_permissions`, one per resource-related
argument; an argument whose AST node could not be obtained
(`get_call_input_ast_node` returned `None`, embedded as the outer `none`)
contributes nothing (`continue`). -/
def resource_arg_results (req : Finset String) (d : PermResDict)
    (service : String) : List (Option ASTArg) → List Bool
  | [] => []
  | none :: rest => resource_arg_results req d service rest
  | some (.strLit s) :: rest =>
    match_result req d service (get_close_match s d service) ::
      resource_arg_results req d service rest
  | some (.nonLit none) :: rest =>
    true :: resource_arg_results req d service rest
  | some (.nonLit (some v)) :: rest =>
    match_result req d service (get_close_match v d service) ::
      resource_arg_results req d service rest

/-- `analyse_resource_level_permissions`.  `resources_info` is `none` when
the API has no resource-related arguments; otherwise one entry per declared
argument carrying the AST/collaborator outcome for it (the AST plumbing via
`get_call_input_ast_node`/`inspect_ast_node` consumes external call-site
data, embedded as the `Option ASTArg` outcomes).  Python's
`all(permission_results)` over the accumulated set of booleans equals the
conjunction of the accumulated list. -/
def analyse_resource_level_permissions (required_api_permissions : Finset String)
    (perm_res_dict : PermResDict) (service_name : String)
    (resources_info : Option (List (Option ASTArg))) : Bool :=
  match resources_info with
  | none => true
  | some args =>
    if (lookupA "*" perm_res_dict).isSome &&
        decide (extract_permission_set "*" perm_res_dict service_name ∩
          required_api_permissions ≠ ∅) then
      true
    else
      (resource_arg_results required_api_permissions perm_res_dict
        service_name args).all id

/-- Specification-side wording of the claim's matching rule for one key of
the index (C4): the decomposed ARN's service field equals the target service
and the candidate fragment equals the ARN's `resource_id` exactly, or the
`resource_id` contains `'/'` and the fragment equals one of its
`'/'`-separated segments. -/
def closeMatchKeyQualifies (resource_to_match service resource : String) : Bool :=
  (mkARN resource).service == service &&
    ((mkARN resource).resource_id == resource_to_match ||
      (pyHasChar '/' (mkARN resource).resource_id &&
        (pySplit '/' (mkARN resource).resource_id).contains resource_to_match))

/-- Specification-side wording of the claim's per-argument verdict (C3):
an argument whose value could not be obtained or resolved counts as true;
a resolvable argument matched against the index takes the intersection test,
and with no close match it is false exactly when every resource key of the
index is fully resolved (no `${`), i.e. true when at least one key is not. -/
def resourceMatchVerdict (req : Finset String) (d : PermResDict)
    (service : String) (v : String) : Bool :=
  match get_close_match v d service with
  | some k => decide (extract_permission_set k d service ∩ req ≠ ∅)
  | none => d.any (fun kv => hasSubStr "$\x7b" kv.1)

/-- Specification-side per-argument result (C3), see
`resourceMatchVerdict`. -/
def resourceArgVerdict (req : Finset String) (d : PermResDict)
    (service : String) : Option ASTArg → Bool
  | none => true
  | some (.strLit s) => resourceMatchVerdict req d service s
  | some (.nonLit none) => true
  | some (.nonLit (some v)) => resourceMatchVerdict req d service v

/-! ### Permission extraction
(`cloudflow/modules/permissionsreslib.py`, `PermissionsIdentifierCls`)

`extract_perm_from_provider` and `extract_perm_for_resources` scan the list
of policy statements returned by `_get_perm_dict_info`.  A statement is a
Python dict with optional keys `Effect`, `Action`, `Resource`; a missing key
raises `KeyError`, and an action string without `':'` raises `IndexError` on
`perm.split(':')[1]`.  Each method wraps its whole loop in one
`try/except`, so such an exception stops the remainder of that extraction
while keeping everything already accumulated.  The accumulated
`defaultdict(set)` indexes are embedded as their flat sets of entries:
membership `(service, action) ∈ result` means `action ∈ perm_dict[service]`
(and likewise for the resource index). -/

/-- One policy statement. -/
structure Stmt where
  effect : Option String
  action : Option (List String)
  resource : Option String

/-- `perm.split(':')[0].strip(), perm.split(':')[1].strip()`; `none` models
the `IndexError` when the action string has no `':'`. -/
def split_service_action (perm : String) : Option (String × String) :=
  match pySplit ':' perm with
  | p0 :: p1 :: _ => some (pyStrip p0, pyStrip p1)
  | _ => none

/-- The section returned by `_get_perm_dict_info`: a list of statements, a
bare string, or any other structure. -/
inductive PermInfo where
  | stmts (l : List Stmt)
  | str (s : String)
  | other

/-- The inner `for perm in extr_perm_dict['Action']` loop of
`extract_perm_from_provider`: insert the split `(service, action)` pairs one
by one; the boolean reports whether the loop completed (false = an action
without `':'` raised, aborting with the entries inserted so far). -/
def addActions : Finset (String × String) → List String →
    Finset (String × String) × Bool
  | acc, [] => (acc, true)
  | acc, perm :: rest =>
    match split_service_action perm with
    | some sa => addActions (insert sa acc) rest
    | none => (acc, false)

/-- The statement loop of `extract_perm_from_provider`: Deny (any non-Allow
effect) statements are skipped; a missing `Effect` or `Action` key or an
unsplittable action aborts the loop (exception caught by the surrounding
`except`), returning what was accumulated. -/
def extract_stmts_provider : Finset (String × String) → List Stmt →
    Finset (String × String)
  | acc, [] => acc
  | acc, d :: rest =>
    match d.effect with
    | none => acc
    | some eff =>
      if eff = "Allow" then
        match d.action with
        | none => acc
        | some perms =>
          match addActions acc perms with
          | (acc2, true) => extract_stmts_provider acc2 rest
          | (acc2, false) => acc2
      else extract_stmts_provider acc rest

/-- `PermissionsIdentifierCls.extract_perm_from_provider` as a function of
the extracted section, returning the flat entry set of `perm_dict`. -/
def extract_perm_from_provider : PermInfo → Finset (String × String)
  | .stmts l => extract_stmts_provider ∅ l
  | .str s => {("undefined", s)}
  | .other => ∅

/-- An entry of the resource index `perm_res_dict`: normally a
`(service, action)` pair; the legacy string branch stores the raw section
string. -/
inductive ResEntry where
  | pair (service action : String)
  | raw (s : String)
deriving DecidableEq

/-- Inner action loop of `extract_perm_for_resources` for the statement's
resource key `res`. -/
def addResActions (res : String) : Finset (String × ResEntry) → List String →
    Finset (String × ResEntry) × Bool
  | acc, [] => (acc, true)
  | acc, perm :: rest =>
    match split_service_action perm with
    | some (s, a) => addResActions res (insert (res, ResEntry.pair s a) acc) rest
    | none => (acc, false)

/-- The statement loop of `extract_perm_for_resources`: the generator first
drops statements without a `Resource` key; for the rest the handling mirrors
`extract_stmts_provider` with entries keyed by `str(statement['Resource'])`
(the `resource` field holds that string form). -/
def extract_stmts_resources : Finset (String × ResEntry) → List Stmt →
    Finset (String × ResEntry)
  | acc, [] => acc
  | acc, d :: rest =>
    match d.resource with
    | none => extract_stmts_resources acc rest
    | some res =>
      match d.effect with
      | none => acc
      | some eff =>
        if eff = "Allow" then
          match d.action with
          | none => acc
          | some perms =>
            match addResActions res acc perms with
            | (acc2, true) => extract_stmts_resources acc2 rest
            | (acc2, false) => acc2
        else extract_stmts_resources acc rest

/-- `PermissionsIdentifierCls.extract_perm_for_resources` as a function of
the extracted section, returning the flat entry set of `perm_res_dict`
(before the later `resolve_resources` key rewriting). -/
def extract_perm_for_resources : PermInfo → Finset (String × ResEntry)
  | .stmts l => extract_stmts_resources ∅ l
  | .str s => {("undefined", ResEntry.raw s)}
  | .other => ∅

/-- A statement the extraction loops process without raising: `Effect`
present, and for an Allow statement an `Action` list whose entries all split
on `':'`. -/
def stmtOk (d : Stmt) : Bool :=
  match d.effect with
  | none => false
  | some eff =>
    if eff = "Allow" then
      match d.action with
      | none => false
      | some perms => perms.all (fun p => (split_service_action p).isSome)
    else true

/-! ### Plugin-extracted information and service-level permission analysis
(`cloudflow/modules/pluginprocessingreslib.py`,
`cloudflow/modules/permissionsreslib.py` / `analyse_api_permissions`)

`PluginExtractedInfoCls` keeps a `defaultdict(dict)` with the optional top
keys `'config'` (plugin name → configuration parameters) and `'handlers'`
(handler name → set of `"service:action"` strings).  The only configuration
parameter the analysis reads is the `'Override'` entry produced by the
`serverless-iam-roles-per-function` plugin model: a set of
`(handler, bool)` pairs, embedded as a list in iteration order because
`analyse_api_permissions` takes the *first* pair matching the handler. -/

/-- The per-plugin configuration parameters consumed by the analysis: the
`'Override'` set of `(handler name, override flag)` pairs, in iteration
order. -/
abbrev ConfigParams := List (String × Bool)

/-- The data structure held by `PluginExtractedInfoCls`: `none` models an
absent top-level key of the `defaultdict`. -/
structure PluginExtractedInfo where
  config : Option (List (String × ConfigParams))
  handlers : Option (List (String × Finset String))

/-- Modelled from the spec: `PluginExtractedInfoCls.is_empty` is called at
`permissionsreslib.py:42` but is not defined in the sources; per the spec
(§4.5, "if no plugin influence is present"), it reports that the plugin
data structure holds no extracted content at all. -/
def PluginExtractedInfo.is_empty (pi : PluginExtractedInfo) : Bool :=
  pi.config.isNone && pi.handlers.isNone

/-- `PluginExtractedInfoCls.has_handlers_permissions`:
`'handlers' in self.plugin_info`. -/
def PluginExtractedInfo.has_handlers_permissions
    (pi : PluginExtractedInfo) : Bool :=
  pi.handlers.isSome

/-- `PluginExtractedInfoCls.has_config_params_for_plugin`:
`plugin_name in self.plugin_info['config']` (the `defaultdict` creates an
empty `'config'` entry when absent, so the membership test is false then). -/
def PluginExtractedInfo.has_config_params_for_plugin
    (pi : PluginExtractedInfo) (plugin_name : String) : Bool :=
  match pi.config with
  | none => false
  | some cfg => (lookupA plugin_name cfg).isSome

/-- `PluginExtractedInfoCls.get_config_params_for_plugin`: dictionary lookup,
`None` on a missing key (`KeyError` caught). -/
def PluginExtractedInfo.get_config_params_for_plugin
    (pi : PluginExtractedInfo) (plugin_name : String) : Option ConfigParams :=
  match pi.config with
  | none => none
  | some cfg => lookupA plugin_name cfg

/-- `re.sub('^[a-zA-Z0-9]+:', '', permission)`: drop a leading non-empty
alphanumeric run followed by `':'`, otherwise leave the string unchanged. -/
def stripServiceName (p : String) : String :=
  let run := p.data.takeWhile Char.isAlphanum
  match p.data.drop run.length with
  | ':' :: rest => if run.isEmpty then p else ⟨rest⟩
  | _ => p

/-- `PluginExtractedInfoCls.get_permissions_for_handler`: look the handler up
under the `'handlers'` key (`none` models the `KeyError` path returning
Python `None`), filter by `permission.startswith(service_name)` when a
service is given, and strip the `service:` head unless `keep_service_name`.
-/
def PluginExtractedInfo.get_permissions_for_handler
    (pi : PluginExtractedInfo) (handler_name : String)
    (service_name : Option String) (keep_service_name : Bool) :
    Option (Finset String) :=
  match pi.handlers with
  | none => none
  | some hs =>
    match lookupA handler_name hs with
    | none => none
    | some perms =>
      let permissions :=
        match service_name with
        | some svc => perms.filter (fun p => pyStartsWith p svc)
        | none => perms
      if keep_service_name then some permissions
      else some (permissions.image stripServiceName)

/-- `analyse_api_permissions` (`permissionsreslib.py`).  Returns `some b` for
a normal boolean return; `none` models an exception escaping the function
(Python raises a `TypeError` when `get_permissions_for_handler` returned
`None` and the code intersects it with a set, and an `IndexError` when no
`Override` pair names the handler). -/
def analyse_api_permissions (required_api_permissions service_permissions :
    Finset String) (service_name : String) (plugin_info : PluginExtractedInfo)
    (handler_name : Option String) : Option Bool :=
  if plugin_info.is_empty || handler_name.isNone then
    some (decide (required_api_permissions ∩ service_permissions ≠ ∅))
  else
    match handler_name with
    | none => some (decide (required_api_permissions ∩ service_permissions ≠ ∅))
    | some handler =>
      if plugin_info.has_handlers_permissions then
        if !(plugin_info.has_config_params_for_plugin "IAMRolesPerFunction") then
          match plugin_info.get_permissions_for_handler handler
              (some service_name) false with
          | none => none
          | some handler_permissions =>
            some (decide (required_api_permissions ∩ service_permissions ≠ ∅) ||
              decide (required_api_permissions ∩ handler_permissions ≠ ∅))
        else
          match plugin_info.get_config_params_for_plugin "IAMRolesPerFunction" with
          | none => none
          | some config_params =>
            match (config_params.filter (fun hv => hv.1 == handler)).head? with
            | none => none
            | some (_, override_flag) =>
              if override_flag then
                match plugin_info.get_permissions_for_handler handler
                    (some service_name) false with
                | none => none
                | some handler_permissions =>
                  some (decide (required_api_permissions ∩
                    handler_permissions ≠ ∅))
              else
                match plugin_info.get_permissions_for_handler handler
                    (some service_name) false with
                | none => none
                | some handler_permissions =>
                  some (decide (required_api_permissions ∩
                    (service_permissions ∪ handler_permissions) ≠ ∅))
      else if plugin_info.has_config_params_for_plugin "IAMRolesPerFunction" then
        some false
      else
        some (decide (required_api_permissions ∩ service_permissions ≠ ∅))

/-! ### Event filtering (`cloudflow/modules/eventfilteringreslib.py`) and the
plugin manager (`cloudflow/modules/pluginprocessingreslib.py`)

The infrastructure-code dictionary chain
`infrastruc_code_dict['functions'][handler]['events']` is embedded as nested
records with `Option` for possibly missing keys; the s3 value of an event
entry is assumed to be a mapping (the only form the analysed manifests use).
AST-level argument extraction (`get_call_input_ast_node`) and the source-code
variable scan (`EventFilteringManagerCls._get_var_value_from_sc`) read
external call-site and file data; they are embedded as the outcome data
carried by `FilterArg`. -/

/-- One s3 filtering rule dict, with its optional `prefix`/`suffix` keys
(the loop tests `'prefix' in rule` first, `elif 'suffix' in rule`). -/
structure S3Rule where
  preRule : Option String
  sufRule : Option String

/-- The mapping under an event entry's `s3` key (optional `rules` key). -/
structure S3EventSpec where
  rules : Option (List S3Rule)

/-- One entry of a handler's `events` list; `s3 = none` models an entry
without an `'s3'` key. -/
structure EventEntry where
  s3 : Option S3EventSpec

/-- One handler's definition (optional `events` key). -/
structure FunctionDef where
  events : Option (List EventEntry)

/-- The infrastructure-code dictionary (optional `functions` key). -/
structure InfraDict where
  functions : Option (List (String × FunctionDef))

/-- The `try` chain of `s3_event_filtering_proc_func` up to
`s3_filtering_info`: reach the handler's `events`, keep the entries with an
`'s3'` key, keep those whose s3 mapping has a `'rules'` key, and take the
first (`[...][0]`); `none` models any raised exception (missing key or
`IndexError`). -/
def s3_filtering_rules (infra : InfraDict) (handler_name : String) :
    Option (List S3Rule) :=
  match infra.functions with
  | none => none
  | some fns =>
    match lookupA handler_name fns with
    | none => none
    | some fd =>
      match fd.events with
      | none => none
      | some events_info =>
        ((events_info.filterMap (fun e => e.s3)).filterMap
          (fun spec => spec.rules)).head?

/-- The `filtering_results` collected by the rule loop: a `startswith` test
per `prefix` rule, an `endswith` test per `suffix` rule (checked in that
order), nothing for a rule with neither key. -/
def s3RuleChecks (input_to_check : String) (rules : List S3Rule) : List Bool :=
  rules.filterMap (fun rule =>
    match rule.preRule with
    | some p => some (pyStartsWith input_to_check p)
    | none =>
      match rule.sufRule with
      | some suf => some (pyEndsWith input_to_check suf)
      | none => none)

/-- `s3_event_filtering_proc_func`: `all(filtering_results)` over the rules
of the handler's first s3-with-rules event; any exception in the `try` chain
returns `True`. -/
def s3_event_filtering_proc_func (input_to_check : String) (infra : InfraDict)
    (handler_name : String) : Bool :=
  match s3_filtering_rules infra handler_name with
  | none => true
  | some rules => (s3RuleChecks input_to_check rules).all id

/-- `EventFilteringManagerCls.get_event_filtering_result`.  `var_value` is
the outcome of `_get_var_value_from_sc` (the external source-file scan),
consulted only in `'unresolved'` mode.  `none` models an exception escaping
the method: the explicit `ValueError` for an unsupported mode, or the
`KeyError` of `self.proc_func_dict[self.service_name]` when the service has
no registered processing function (the dispatch dict holds only `'s3'`). -/
def get_event_filtering_result (infra : InfraDict)
    (service_name handler_name : String) (input_to_check : String)
    (check_mode : String) (var_value : Option String) : Option Bool :=
  if check_mode ≠ "resolved" ∧ check_mode ≠ "unresolved" then none
  else
    match (if check_mode = "unresolved" then var_value else some input_to_check) with
    | none => some true
    | some v =>
      if service_name = "s3" then
        some (s3_event_filtering_proc_func v infra handler_name)
      else none

/-- The AST node extracted for one filtering-relevant argument, with the
external outcomes the evaluation consults:
* `constStr s` — an `ast.Constant` string literal;
* `name ident varValue` — an `ast.Name`; `varValue` is what the source-code
  scan `_get_var_value_from_sc ident` yields (`none` = no literal
  assignment found);
* `other` — any other node (contributes `True`). -/
inductive FilterArg where
  | constStr (s : String)
  | name (ident : String) (varValue : Option String)
  | other

/-- The `event_filtering_results` loop of `analyse_event_filtering`: one
boolean per argument whose evaluation returned normally, skipping arguments
without AST information; `none` models an exception raised by
`get_event_filtering_result` propagating out of the loop. -/
def eventFilteringResults (service_name : String) (infra : InfraDict)
    (handler_name : String) : List (Option FilterArg) → Option (List Bool)
  | [] => some []
  | none :: rest => eventFilteringResults service_name infra handler_name rest
  | some (.constStr s) :: rest =>
    match get_event_filtering_result infra service_name handler_name s
        "resolved" none with
    | none => none
    | some b =>
      (eventFilteringResults service_name infra handler_name rest).map
        (fun l => b :: l)
  | some (.name ident v) :: rest =>
    match get_event_filtering_result infra service_name handler_name ident
        "unresolved" v with
    | none => none
    | some b =>
      (eventFilteringResults service_name infra handler_name rest).map
        (fun l => b :: l)
  | some .other :: rest =>
    (eventFilteringResults service_name infra handler_name rest).map
      (fun l => true :: l)

/-- `analyse_event_filtering`: `some true` when no filtering information
exists for the API; otherwise `all(event_filtering_results)`, with `none`
modelling an exception propagating to the caller. -/
def analyse_event_filtering (service_name : String)
    (event_filtering_info : Option (List (Option FilterArg)))
    (infra : InfraDict) (handler_name : String) : Option Bool :=
  match event_filtering_info with
  | none => some true
  | some args =>
    (eventFilteringResults service_name infra handler_name args).map
      (fun l => l.all id)

/-- Specification-side wording of one s3 rule test (C7): a prefix rule is a
starts-with test, a suffix rule an ends-with test (a rule with neither key
constrains nothing). -/
def s3RuleSatisfied (input_to_check : String) (rule : S3Rule) : Bool :=
  match rule.preRule with
  | some p => pyStartsWith input_to_check p
  | none =>
    match rule.sufRule with
    | some suf => pyEndsWith input_to_check suf
    | none => true

/-- Specification-side per-argument verdict for the s3 service (C7):
`none` for an argument that contributes nothing (no AST information),
`some true` for an unresolvable variable or an uninspectable node, and the
service predicate on the literal / resolved value otherwise. -/
def s3ArgVerdict (infra : InfraDict) (handler_name : String) :
    Option FilterArg → Option Bool
  | none => none
  | some (.constStr s) => some (s3_event_filtering_proc_func s infra handler_name)
  | some (.name _ none) => some true
  | some (.name _ (some v)) =>
    some (s3_event_filtering_proc_func v infra handler_name)
  | some .other => some true

/-- `PluginManagerCls.init_plugin_models_dict`: the keys of the plugin-model
dispatch dictionary. -/
def plugin_models_keys : List String := ["serverless-iam-roles-per-function"]

/-- `PluginManagerCls.process_all_plugins`: iterate the manifest's plugin
list; an unsupported plugin raises `KeyError` on the dispatch dictionary,
caught by the per-plugin `try/except` (warning printed), and the loop
continues.  The embedding returns the list of plugins that were processed
(the extraction side effects of `process_plugin` are out of scope here). -/
def process_all_plugins : List String → List String
  | [] => []
  | p :: rest =>
    if p ∈ plugin_models_keys then p :: process_all_plugins rest
    else process_all_plugins rest

/-! ### The YAML template resolver
(`cloudflow/modules/customresolverreslib.py`, `YAMLResolverCls._process_value`)

The resolver works on one scalar string at a time.  The regex
`\$\{(.*)\}` is embedded exactly: `re.search` scans positions left to
right; at the first position starting with `${` whose newline-free window
contains a `}`, the greedy `(.*)` captures up to the *last* `}` of that
window.  The reference tree (`self.ref_dict`, a YAML-loaded structure whose
scalars are all strings) is the inductive `YVal`.  The delegation to
`ExtFilesManagerCls.resolve_value_from_ext_file` reads external files, so it
is embedded as an oracle parameter; the branch guard (does
`'{' + extracted + '}'` match `\{file\((.+)\):(.+)\}`?) is embedded as the
executable existence test `extFileValueMatch`. -/

/-- Split the newline-free window at its *last* `'}'`: returns the
characters before it (the greedy group) and those after it.  `none` when the
window holds no `'}'`. -/
def splitLastBrace (w : List Char) : Option (List Char × List Char) :=
  match w.reverse.dropWhile (fun c => c ≠ '}') with
  | [] => none
  | _ :: beforeRev =>
    some (beforeRev.reverse, (w.reverse.takeWhile (fun c => c ≠ '}')).reverse)

theorem splitLastBrace_length {w g a : List Char}
    (h : splitLastBrace w = some (g, a)) : g.length + 1 ≤ w.length := by
  unfold splitLastBrace at h
  cases hd : w.reverse.dropWhile (fun c => c ≠ '}') with
  | nil => rw [hd] at h; simp at h
  | cons x beforeRev =>
    rw [hd] at h
    simp only [Option.some.injEq, Prod.mk.injEq] at h
    obtain ⟨hg, -⟩ := h
    have h1 : (w.reverse.dropWhile (fun c => c ≠ '}')).length ≤ w.length := by
      have := (w.reverse.dropWhile_sublist (fun c => c ≠ '}')).length_le
      simpa using this
    rw [hd] at h1
    simp only [List.length_cons] at h1
    subst hg
    simp only [List.length_reverse]
    omega

/-- A match of the regex `\$\{(.*)\}` anchored at the head of `l`: `l` must
start with `${`, and the greedy group runs to the last `'}'` of the
newline-free window (`.` does not match a newline).  Returns the group and
the suffix after the match. -/
def trySpanAt (l : List Char) : Option (List Char × List Char) :=
  match l with
  | c1 :: c2 :: rest2 =>
    if c1 = '$' ∧ c2 = '{' then
      match splitLastBrace (rest2.takeWhile (fun x => x ≠ '\n')) with
      | some (g, _) => some (g, rest2.drop (g.length + 1))
      | none => none
    else none
  | _ => none

theorem trySpanAt_length {l g suf : List Char}
    (h : trySpanAt l = some (g, suf)) :
    l.length = g.length + suf.length + 3 := by
  match l with
  | [] => simp [trySpanAt] at h
  | [c] => simp [trySpanAt] at h
  | c1 :: c2 :: rest2 =>
    simp only [trySpanAt] at h
    split at h
    · cases hsb : splitLastBrace (rest2.takeWhile (fun x => x ≠ '\n')) with
      | none => rw [hsb] at h; simp at h
      | some pr =>
        obtain ⟨g', a'⟩ := pr
        rw [hsb] at h
        simp only [Option.some.injEq, Prod.mk.injEq] at h
        obtain ⟨hg, hsuf⟩ := h
        have h1 : g'.length + 1 ≤ (rest2.takeWhile (fun x => x ≠ '\n')).length :=
          splitLastBrace_length hsb
        have h2 : (rest2.takeWhile (fun x => x ≠ '\n')).length ≤ rest2.length := by
          have := (rest2.takeWhile_sublist (fun x => x ≠ '\n')).length_le
          simpa using this
        have h3 : (rest2.drop (g'.length + 1)).length =
            rest2.length - (g'.length + 1) := by
          simp
        subst hg
        subst hsuf
        simp only [List.length_cons]
        omega
    · simp at h

/-- `re.search(r'\$\{(.*)\}', value)`: try a match at each position from the
left; on success return `(prefix before the match, group, suffix after the
match)`. -/
def findSpan : List Char → Option (List Char × List Char × List Char)
  | [] => none
  | c :: rest =>
    match trySpanAt (c :: rest) with
    | some (g, suf) => some ([], g, suf)
    | none => (findSpan rest).map (fun t => (c :: t.1, t.2.1, t.2.2))

theorem findSpan_length :
    ∀ {l p g s : List Char}, findSpan l = some (p, g, s) →
      l.length = p.length + g.length + s.length + 3 := by
  intro l
  induction l with
  | nil => intro p g s h; simp [findSpan] at h
  | cons c rest ih =>
    intro p g s h
    simp only [findSpan] at h
    cases hts : trySpanAt (c :: rest) with
    | some pr =>
      obtain ⟨g', suf'⟩ := pr
      rw [hts] at h
      simp only [Option.some.injEq, Prod.mk.injEq] at h
      obtain ⟨hp, hg, hs⟩ := h
      subst hp; subst hg; subst hs
      simpa using trySpanAt_length hts
    | none =>
      rw [hts] at h
      simp only [Option.map_eq_some'] at h
      obtain ⟨⟨p', g', s'⟩, hfs, ht⟩ := h
      simp only [Prod.mk.injEq] at ht
      obtain ⟨hp, hg, hs⟩ := ht
      subst hp; subst hg; subst hs
      have := ih hfs
      simp only [List.length_cons]
      omega

/-- A node of the reference tree `self.ref_dict` (loaded with
`yaml.BaseLoader`, so every scalar is a string). -/
inductive YVal where
  | str (s : List Char)
  | map (entries : List (List Char × YVal))
  | seq (items : List YVal)

/-- Dictionary lookup in a mapping node (first binding; YAML mappings have
distinct keys). -/
def lookupY (k : List Char) : List (List Char × YVal) → Option YVal
  | [] => none
  | (k', v) :: rest => if k' = k then some v else lookupY k rest

/-- The key-walk loop `for key in ...: res_value = res_value[key]`:
a missing key raises (`KeyError`, re-raised as `ValueError`), and indexing a
scalar or a sequence with a string key raises `TypeError`; both are `none`
here and are caught by the surrounding `except`. -/
def walk : YVal → List (List Char) → Option YVal
  | v, [] => some v
  | YVal.map entries, k :: rest =>
    match lookupY k entries with
    | some v' => walk v' rest
    | none => none
  | YVal.str _, _ :: _ => none
  | YVal.seq _, _ :: _ => none

/-- `extracted_str.split(',')[1]`: the segment between the first and second
comma (to the end when there is no second comma); only evaluated when the
string contains a comma, so index 1 exists. -/
def commaTail (ex : List Char) : List Char :=
  ((ex.dropWhile (fun c => c ≠ ',')).drop 1).takeWhile (fun c => c ≠ ',')

/-- `re.search('^(self:|opt:|env:)', e)` as a boolean. -/
def startsWithAnyMarker (e : List Char) : Bool :=
  leadMatch "self:".data e || leadMatch "opt:".data e || leadMatch "env:".data e

/-- `re.sub(r'^\$?\{?self:', '', e)`: drop an optional `$`, an optional
`{`, and a mandatory `self:` at the start, when that pattern is present. -/
def stripSelfMarker (e : List Char) : List Char :=
  if leadMatch "$\x7bself:".data e then e.drop 7
  else if leadMatch "$self:".data e then e.drop 6
  else if leadMatch "\x7bself:".data e then e.drop 6
  else if leadMatch "self:".data e then e.drop 5
  else e

/-- Does `l` contain a match of `\{file\((.+)\):(.+)\}` (the guard
`ext_file_value_reg_exp.search(...) is not None`)?  Exact existence
semantics: some position starts with `{file(`, followed by a non-empty
newline-free path, `):`, a non-empty newline-free key, and `}`. -/
def extFileValueMatch (l : List Char) : Bool :=
  (List.range l.length).any (fun i =>
    leadMatch "\x7bfile(".data (l.drop i) &&
    ((List.range (l.drop (i + 6)).length).any (fun j =>
      decide (0 < j) &&
      ((l.drop (i + 6)).take j).all (fun c => c ≠ '\n') &&
      leadMatch "):".data ((l.drop (i + 6)).drop j) &&
      ((List.range ((l.drop (i + 6)).drop (j + 2)).length).any (fun k =>
        decide (0 < k) &&
        (((l.drop (i + 6)).drop (j + 2)).take k).all (fun c => c ≠ '\n') &&
        leadMatch "\x7d".data (((l.drop (i + 6)).drop (j + 2)).drop k))))))

/-- Fuel-driven evaluator of `YAMLResolverCls._process_value`.  Every
recursive call of the Python method is on a strictly shorter string, so
`value.length` fuel always suffices (`processGo_congr`).  The steps, in
source order:
1. search `\$\{(.*)\}` in `value`; without a match return `value`;
2. when the (greedy) group contains a comma, keep only
   `split(',')[1].strip()`; when that fallback does not start with
   `self:`/`opt:`/`env:`, return it as already resolved — dropping the rest
   of `value`;
3. resolve a nested `\$\{(.*)\}` inside the group by recursion on the
   reconstituted `${...}` and substitute it back;
4. strip a leading `self:` marker, split on `'.'` and walk the reference
   tree;
5. on a string result return
   `process(prefix) ++ value ++ process(suffix)`;
6. on any exception (lookup failure, or a non-string result making the
   concatenation raise `TypeError`) delegate to the external-file manager
   when `'{' + extracted + '}'` looks like a `file(...)` reference (the
   `oracle`), else return `value` unchanged. -/
def processGo (ref : YVal) (oracle : List Char → List Char) :
    Nat → List Char → List Char
  | 0, value => value
  | fuel + 1, value =>
    match findSpan value with
    | none => value
    | some (p, ex, s) =>
      let e := if ex.contains ',' then trimChars (commaTail ex) else ex
      if ex.contains ',' && !(startsWithAnyMarker e) then e
      else
        let e2 :=
          match findSpan e with
          | some (p2, g2, s2) =>
            p2 ++ processGo ref oracle fuel ('$' :: '{' :: (g2 ++ ['\x7d'])) ++ s2
          | none => e
        match walk ref (splitOnChar '.' (stripSelfMarker e2)) with
        | some (YVal.str v) =>
          processGo ref oracle fuel p ++ v ++ processGo ref oracle fuel s
        | _ =>
          if extFileValueMatch ('\x7b' :: (e2 ++ ['\x7d'])) then
            oracle ('\x7b' :: (e2 ++ ['\x7d']))
          else value

/-- `YAMLResolverCls._process_value` on character lists. -/
def process_value (ref : YVal) (oracle : List Char → List Char)
    (value : List Char) : List Char :=
  processGo ref oracle value.length value

theorem trimChars_length_le (l : List Char) : (trimChars l).length ≤ l.length := by
  have h1 : (l.dropWhile Char.isWhitespace).length ≤ l.length :=
    (l.dropWhile_sublist Char.isWhitespace).length_le
  have h2 : ((l.dropWhile Char.isWhitespace).reverse.dropWhile
      Char.isWhitespace).length ≤
      (l.dropWhile Char.isWhitespace).reverse.length :=
    ((l.dropWhile Char.isWhitespace).reverse.dropWhile_sublist
      Char.isWhitespace).length_le
  simp only [trimChars, List.length_reverse] at *
  omega

theorem commaTail_length_le (l : List Char) :
    (commaTail l).length ≤ l.length := by
  have h1 : (((l.dropWhile (fun c => c ≠ ',')).drop 1).takeWhile
      (fun c => c ≠ ',')).length ≤
      ((l.dropWhile (fun c => c ≠ ',')).drop 1).length :=
    (((l.dropWhile (fun c => c ≠ ',')).drop 1).takeWhile_sublist
      (fun c => c ≠ ',')).length_le
  have h2 : (l.dropWhile (fun c => c ≠ ',')).length ≤ l.length :=
    (l.dropWhile_sublist (fun c => c ≠ ',')).length_le
  have h3 : ((l.dropWhile (fun c => c ≠ ',')).drop 1).length =
      (l.dropWhile (fun c => c ≠ ',')).length - 1 := by simp
  simp only [commaTail]
  omega

theorem processGo_congr (ref : YVal) (o : List Char → List Char) :
    ∀ (n m : Nat) (value : List Char), value.length ≤ n → value.length ≤ m →
      processGo ref o n value = processGo ref o m value := by
  intro n
  induction n with
  | zero =>
    intro m value hn _
    have hv : value = [] := List.eq_nil_of_length_eq_zero (Nat.le_zero.mp hn)
    subst hv
    cases m with
    | zero => rfl
    | succ m => simp [processGo, findSpan]
  | succ n ih =>
    intro m value hn hm
    cases m with
    | zero =>
      have hv : value = [] := List.eq_nil_of_length_eq_zero (Nat.le_zero.mp hm)
      subst hv
      simp [processGo, findSpan]
    | succ m =>
      simp only [processGo]
      cases hfs : findSpan value with
      | none => rfl
      | some t =>
        obtain ⟨p, ex, s⟩ := t
        have hlen := findSpan_length hfs
        dsimp only
        by_cases hc : (ex.contains ',' && !(startsWithAnyMarker
            (if ex.contains ',' = true then trimChars (commaTail ex)
             else ex))) = true
        · rw [if_pos hc, if_pos hc]
        · rw [if_neg hc, if_neg hc]
          have he : (if ex.contains ',' = true then trimChars (commaTail ex)
              else ex).length ≤ ex.length := by
            split
            · exact (trimChars_length_le _).trans (commaTail_length_le ex)
            · exact Nat.le_refl _
          cases hfe : findSpan (if ex.contains ',' = true then
              trimChars (commaTail ex) else ex) with
          | none =>
            dsimp only
            cases hw : walk ref (splitOnChar '.' (stripSelfMarker
                (if ex.contains ',' = true then trimChars (commaTail ex)
                 else ex))) with
            | none => rfl
            | some yv =>
              cases yv with
              | str v =>
                rw [ih m p (by omega) (by omega), ih m s (by omega) (by omega)]
              | map entries => rfl
              | seq items => rfl
          | some t2 =>
            obtain ⟨p2, g2, s2⟩ := t2
            have hlen2 := findSpan_length hfe
            have hspan : ('$' :: '{' :: (g2 ++ ['\x7d'])).length =
                g2.length + 3 := by simp
            dsimp only
            rw [ih m ('$' :: '{' :: (g2 ++ ['\x7d']))
              (by omega) (by omega)]
            cases hw : walk ref (splitOnChar '.' (stripSelfMarker
                (p2 ++ processGo ref o m ('$' :: '{' :: (g2 ++ ['\x7d'])) ++
                  s2))) with
            | none => rfl
            | some yv =>
              cases yv with
              | str v =>
                rw [ih m p (by omega) (by omega), ih m s (by omega) (by omega)]
              | map entries => rfl
              | seq items => rfl

/-! ### Helper lemmas shared by the claim theorems -/

theorem not_all_eq_any_not {α : Type} (l : List α) (p : α → Bool) :
    (!l.all p) = l.any (fun x => !p x) := by
  induction l with
  | nil => rfl
  | cons x xs ih => simp [List.all_cons, List.any_cons, Bool.not_and, ih]

theorem match_result_eq_verdict (req : Finset String) (d : PermResDict)
    (svc v : String) :
    match_result req d svc (get_close_match v d svc) =
      resourceMatchVerdict req d svc v := by
  unfold match_result resourceMatchVerdict
  cases get_close_match v d svc with
  | some k => rfl
  | none =>
    simp only [check_if_resolved, not_all_eq_any_not]
    congr 1
    funext kv
    simp

theorem addActions_subset (acc : Finset (String × String)) (perms : List String) :
    acc ⊆ (addActions acc perms).1 := by
  induction perms generalizing acc with
  | nil => simp [addActions]
  | cons p rest ih =>
    simp only [addActions]
    cases split_service_action p with
    | some sa => exact (Finset.subset_insert sa acc).trans (ih _)
    | none => exact Finset.Subset.refl _

theorem addActions_complete (acc : Finset (String × String)) (perms : List String)
    (h : ∀ p ∈ perms, (split_service_action p).isSome = true) :
    (addActions acc perms).2 = true := by
  induction perms generalizing acc with
  | nil => rfl
  | cons p rest ih =>
    simp only [addActions]
    cases hp : split_service_action p with
    | some sa => exact ih _ (fun q hq => h q (List.mem_cons_of_mem p hq))
    | none => simp [hp] at h

theorem addActions_mem (acc : Finset (String × String)) (perms : List String)
    (h : ∀ p ∈ perms, (split_service_action p).isSome = true)
    {a : String} {sa : String × String} (ha : a ∈ perms)
    (hsa : split_service_action a = some sa) :
    sa ∈ (addActions acc perms).1 := by
  induction perms generalizing acc with
  | nil => simp at ha
  | cons p rest ih =>
    simp only [addActions]
    rcases List.mem_cons.mp ha with rfl | hmem
    · rw [hsa]
      exact addActions_subset _ _ (Finset.mem_insert_self sa acc)
    · cases hp : split_service_action p with
      | some sa' => exact ih _ (fun q hq => h q (List.mem_cons_of_mem p hq)) hmem
      | none => simp [hp] at h

theorem extract_stmts_provider_mono (l : List Stmt)
    (acc : Finset (String × String)) :
    acc ⊆ extract_stmts_provider acc l := by
  induction l generalizing acc with
  | nil => simp [extract_stmts_provider]
  | cons d rest ih =>
    simp only [extract_stmts_provider]
    cases hde : d.effect with
    | none => exact Finset.Subset.refl _
    | some eff =>
      dsimp only
      by_cases he : eff = "Allow"
      · rw [if_pos he]
        cases hda : d.action with
        | none => exact Finset.Subset.refl _
        | some perms =>
          dsimp only
          cases hadd : addActions acc perms with
          | mk acc2 flag =>
            have hsub : acc ⊆ acc2 := by
              have := addActions_subset acc perms
              rw [hadd] at this
              exact this
            cases flag
            · exact hsub
            · exact hsub.trans (ih acc2)
      · rw [if_neg he]
        exact ih acc

theorem addResActions_subset (res : String) (acc : Finset (String × ResEntry))
    (perms : List String) : acc ⊆ (addResActions res acc perms).1 := by
  induction perms generalizing acc with
  | nil => simp [addResActions]
  | cons p rest ih =>
    simp only [addResActions]
    cases hp : split_service_action p with
    | some sa =>
      obtain ⟨s, a⟩ := sa
      exact (Finset.subset_insert _ acc).trans (ih _)
    | none => exact Finset.Subset.refl _

theorem addResActions_complete (res : String) (acc : Finset (String × ResEntry))
    (perms : List String)
    (h : ∀ p ∈ perms, (split_service_action p).isSome = true) :
    (addResActions res acc perms).2 = true := by
  induction perms generalizing acc with
  | nil => rfl
  | cons p rest ih =>
    simp only [addResActions]
    cases hp : split_service_action p with
    | some sa =>
      obtain ⟨s, a⟩ := sa
      exact ih _ (fun q hq => h q (List.mem_cons_of_mem p hq))
    | none => simp [hp] at h

theorem addResActions_mem (res : String) (acc : Finset (String × ResEntry))
    (perms : List String)
    (h : ∀ p ∈ perms, (split_service_action p).isSome = true)
    {a : String} {sa : String × String} (ha : a ∈ perms)
    (hsa : split_service_action a = some sa) :
    (res, ResEntry.pair sa.1 sa.2) ∈ (addResActions res acc perms).1 := by
  induction perms generalizing acc with
  | nil => simp at ha
  | cons p rest ih =>
    simp only [addResActions]
    rcases List.mem_cons.mp ha with rfl | hmem
    · rw [hsa]
      exact addResActions_subset res _ _ (Finset.mem_insert_self _ acc)
    · cases hp : split_service_action p with
      | some sa' =>
        obtain ⟨s, a'⟩ := sa'
        exact ih _ (fun q hq => h q (List.mem_cons_of_mem p hq)) hmem
      | none => simp [hp] at h

theorem extract_stmts_resources_mono (l : List Stmt)
    (acc : Finset (String × ResEntry)) :
    acc ⊆ extract_stmts_resources acc l := by
  induction l generalizing acc with
  | nil => simp [extract_stmts_resources]
  | cons d rest ih =>
    simp only [extract_stmts_resources]
    cases hdr : d.resource with
    | none => exact ih acc
    | some res =>
      dsimp only
      cases hde : d.effect with
      | none => exact Finset.Subset.refl _
      | some eff =>
        dsimp only
        by_cases he : eff = "Allow"
        · rw [if_pos he]
          cases hda : d.action with
          | none => exact Finset.Subset.refl _
          | some perms =>
            dsimp only
            cases hadd : addResActions res acc perms with
            | mk acc2 flag =>
              have hsub : acc ⊆ acc2 := by
                have := addResActions_subset res acc perms
                rw [hadd] at this
                exact this
              cases flag
              · exact hsub
              · exact hsub.trans (ih acc2)
        · rw [if_neg he]
          exact ih acc

theorem resource_arg_results_all (req : Finset String) (d : PermResDict)
    (svc : String) (args : List (Option ASTArg)) :
    (resource_arg_results req d svc args).all id =
      (args.map (resourceArgVerdict req d svc)).all id := by
  induction args with
  | nil => rfl
  | cons hd rest ih =>
    rcases hd with _ | arg
    · simpa [resource_arg_results, List.map_cons, List.all_cons,
        resourceArgVerdict] using ih
    · rcases arg with s | r
      · simp [resource_arg_results, List.map_cons, List.all_cons,
          resourceArgVerdict, match_result_eq_verdict, ih]
      · rcases r with _ | v
        · simp [resource_arg_results, List.map_cons, List.all_cons,
            resourceArgVerdict, ih]
        · simp [resource_arg_results, List.map_cons, List.all_cons,
            resourceArgVerdict, match_result_eq_verdict, ih]

theorem extract_stmts_provider_deny (pre post : List Stmt) (den : Stmt)
    (eff : String) (acc : Finset (String × String))
    (hden : den.effect = some eff) (hne : eff ≠ "Allow") :
    extract_stmts_provider acc (pre ++ den :: post) =
      extract_stmts_provider acc (pre ++ post) := by
  induction pre generalizing acc with
  | nil =>
    simp only [List.nil_append, extract_stmts_provider, hden]
    rw [if_neg hne]
  | cons d pre ih =>
    simp only [List.cons_append, extract_stmts_provider]
    cases hde : d.effect with
    | none => rfl
    | some e =>
      dsimp only
      by_cases he : e = "Allow"
      · rw [if_pos he, if_pos he]
        cases hda : d.action with
        | none => rfl
        | some perms =>
          dsimp only
          cases hadd : addActions acc perms with
          | mk acc2 flag =>
            cases flag
            · rfl
            · exact ih acc2
      · rw [if_neg he, if_neg he]
        exact ih acc

theorem extract_stmts_resources_deny (pre post : List Stmt) (den : Stmt)
    (eff : String) (acc : Finset (String × ResEntry))
    (hden : den.effect = some eff) (hne : eff ≠ "Allow") :
    extract_stmts_resources acc (pre ++ den :: post) =
      extract_stmts_resources acc (pre ++ post) := by
  induction pre generalizing acc with
  | nil =>
    simp only [List.nil_append, extract_stmts_resources]
    cases hdr : den.resource with
    | none => rfl
    | some res =>
      dsimp only
      rw [hden]
      dsimp only
      rw [if_neg hne]
  | cons d pre ih =>
    simp only [List.cons_append, extract_stmts_resources]
    cases hdr : d.resource with
    | none => exact ih acc
    | some res =>
      dsimp only
      cases hde : d.effect with
      | none => rfl
      | some e =>
        dsimp only
        by_cases he : e = "Allow"
        · rw [if_pos he, if_pos he]
          cases hda : d.action with
          | none => rfl
          | some perms =>
            dsimp only
            cases hadd : addResActions res acc perms with
            | mk acc2 flag =>
              cases flag
              · rfl
              · exact ih acc2
        · rw [if_neg he, if_neg he]
          exact ih acc

theorem extract_stmts_provider_contrib (pre post : List Stmt) (good : Stmt)
    (perms : List String) (a : String) (sa : String × String)
    (acc : Finset (String × String))
    (hok : ∀ s ∈ pre, stmtOk s = true)
    (heff : good.effect = some "Allow") (hact : good.action = some perms)
    (hsplit : ∀ p ∈ perms, (split_service_action p).isSome = true)
    (ha : a ∈ perms) (hsa : split_service_action a = some sa) :
    sa ∈ extract_stmts_provider acc (pre ++ good :: post) := by
  induction pre generalizing acc with
  | nil =>
    simp only [List.nil_append, extract_stmts_provider, heff]
    rw [if_pos trivial, hact]
    dsimp only
    cases hadd : addActions acc perms with
    | mk acc2 flag =>
      have hflag : flag = true := by
        have := addActions_complete acc perms hsplit
        rw [hadd] at this
        exact this
      subst hflag
      have hmem : sa ∈ acc2 := by
        have := addActions_mem acc perms hsplit ha hsa
        rw [hadd] at this
        exact this
      exact extract_stmts_provider_mono post acc2 hmem
  | cons d pre ih =>
    have hokd : stmtOk d = true := hok d (List.mem_cons_self d pre)
    have hokr : ∀ s ∈ pre, stmtOk s = true :=
      fun s hs => hok s (List.mem_cons_of_mem d hs)
    simp only [List.cons_append, extract_stmts_provider]
    cases hde : d.effect with
    | none => simp [stmtOk, hde] at hokd
    | some e =>
      dsimp only
      by_cases he : e = "Allow"
      · rw [if_pos he]
        cases hda : d.action with
        | none => simp [stmtOk, hde, he, hda] at hokd
        | some perms2 =>
          dsimp only
          have hsplit2 : ∀ p ∈ perms2, (split_service_action p).isSome = true := by
            intro p hp
            have : perms2.all (fun q => (split_service_action q).isSome) = true := by
              simpa [stmtOk, hde, he, hda] using hokd
            exact List.all_eq_true.mp this p hp
          cases hadd : addActions acc perms2 with
          | mk acc2 flag =>
            have hflag : flag = true := by
              have := addActions_complete acc perms2 hsplit2
              rw [hadd] at this
              exact this
            subst hflag
            exact ih acc2 hokr
      · rw [if_neg he]
        exact ih acc hokr

theorem extract_stmts_resources_contrib (pre post : List Stmt) (good : Stmt)
    (perms : List String) (a res : String) (sa : String × String)
    (acc : Finset (String × ResEntry))
    (hok : ∀ s ∈ pre, stmtOk s = true)
    (heff : good.effect = some "Allow") (hact : good.action = some perms)
    (hres : good.resource = some res)
    (hsplit : ∀ p ∈ perms, (split_service_action p).isSome = true)
    (ha : a ∈ perms) (hsa : split_service_action a = some sa) :
    (res, ResEntry.pair sa.1 sa.2) ∈
      extract_stmts_resources acc (pre ++ good :: post) := by
  induction pre generalizing acc with
  | nil =>
    simp only [List.nil_append, extract_stmts_resources, hres]
    rw [heff]
    dsimp only
    rw [if_pos rfl, hact]
    dsimp only
    cases hadd : addResActions res acc perms with
    | mk acc2 flag =>
      have hflag : flag = true := by
        have := addResActions_complete res acc perms hsplit
        rw [hadd] at this
        exact this
      subst hflag
      have hmem : (res, ResEntry.pair sa.1 sa.2) ∈ acc2 := by
        have := addResActions_mem res acc perms hsplit ha hsa
        rw [hadd] at this
        exact this
      exact extract_stmts_resources_mono post acc2 hmem
  | cons d pre ih =>
    have hokd : stmtOk d = true := hok d (List.mem_cons_self d pre)
    have hokr : ∀ s ∈ pre, stmtOk s = true :=
      fun s hs => hok s (List.mem_cons_of_mem d hs)
    simp only [List.cons_append, extract_stmts_resources]
    cases hdr : d.resource with
    | none => exact ih acc hokr
    | some res2 =>
      dsimp only
      cases hde : d.effect with
      | none => simp [stmtOk, hde] at hokd
      | some e =>
        dsimp only
        by_cases he : e = "Allow"
        · rw [if_pos he]
          cases hda : d.action with
          | none => simp [stmtOk, hde, he, hda] at hokd
          | some perms2 =>
            dsimp only
            have hsplit2 : ∀ p ∈ perms2, (split_service_action p).isSome = true := by
              intro p hp
              have : perms2.all (fun q => (split_service_action q).isSome) = true := by
                simpa [stmtOk, hde, he, hda] using hokd
              exact List.all_eq_true.mp this p hp
            cases hadd : addResActions res2 acc perms2 with
            | mk acc2 flag =>
              have hflag : flag = true := by
                have := addResActions_complete res2 acc perms2 hsplit2
                rw [hadd] at this
                exact this
              subst hflag
              exact ih acc2 hokr
        · rw [if_neg he]
          exact ih acc hokr

theorem s3RuleChecks_all (input : String) (rules : List S3Rule) :
    (s3RuleChecks input rules).all id = rules.all (s3RuleSatisfied input) := by
  induction rules with
  | nil => rfl
  | cons r rest ih =>
    cases hpre : r.preRule with
    | some p =>
      have h1 : s3RuleChecks input (r :: rest) =
          pyStartsWith input p :: s3RuleChecks input rest := by
        simp [s3RuleChecks, List.filterMap_cons, hpre]
      have h2 : s3RuleSatisfied input r = pyStartsWith input p := by
        simp [s3RuleSatisfied, hpre]
      simp only [h1, List.all_cons, ih, h2, id]
    | none =>
      cases hsuf : r.sufRule with
      | some suf =>
        have h1 : s3RuleChecks input (r :: rest) =
            pyEndsWith input suf :: s3RuleChecks input rest := by
          simp [s3RuleChecks, List.filterMap_cons, hpre, hsuf]
        have h2 : s3RuleSatisfied input r = pyEndsWith input suf := by
          simp [s3RuleSatisfied, hpre, hsuf]
        simp only [h1, List.all_cons, ih, h2, id]
      | none =>
        have h1 : s3RuleChecks input (r :: rest) = s3RuleChecks input rest := by
          simp [s3RuleChecks, List.filterMap_cons, hpre, hsuf]
        have h2 : s3RuleSatisfied input r = true := by
          simp [s3RuleSatisfied, hpre, hsuf]
        simp only [h1, List.all_cons, ih, h2, Bool.true_and]

theorem eventFilteringResults_s3 (infra : InfraDict) (handler : String)
    (args : List (Option FilterArg)) :
    eventFilteringResults "s3" infra handler args =
      some (args.filterMap (s3ArgVerdict infra handler)) := by
  have hmode1 : ("resolved" : String) ≠ "unresolved" := by decide
  have hmode2 : ("unresolved" : String) ≠ "resolved" := by decide
  induction args with
  | nil => rfl
  | cons hd rest ih =>
    rcases hd with _ | arg
    · simpa [eventFilteringResults, List.filterMap_cons, s3ArgVerdict] using ih
    · rcases arg with s | ⟨ident, v⟩ | _
      · simp [eventFilteringResults, get_event_filtering_result, hmode1,
          s3ArgVerdict, List.filterMap_cons, ih]
      · rcases v with _ | v
        · simp [eventFilteringResults, get_event_filtering_result, hmode2,
            s3ArgVerdict, List.filterMap_cons, ih]
        · simp [eventFilteringResults, get_event_filtering_result, hmode2,
            s3ArgVerdict, List.filterMap_cons, ih]
      · simp [eventFilteringResults, s3ArgVerdict, List.filterMap_cons, ih]

theorem process_all_plugins_skip (pre post : List String) (p : String)
    (hp : p ∉ plugin_models_keys) :
    process_all_plugins (pre ++ p :: post) = process_all_plugins (pre ++ post) := by
  induction pre with
  | nil => simp [process_all_plugins, hp]
  | cons q pre ih =>
    by_cases hq : q ∈ plugin_models_keys <;>
      simp [process_all_plugins, hq, ih]

theorem leadMatch_append (pat rest : List Char) :
    leadMatch pat (pat ++ rest) = true := by
  induction pat with
  | nil => rfl
  | cons c cs ih => simp [leadMatch, ih]

theorem dropWhile_not_contains {sep : Char} {l1 l2 : List Char}
    (h : l1.contains sep = false) :
    (l1 ++ sep :: l2).dropWhile (fun c => c ≠ sep) = sep :: l2 := by
  induction l1 with
  | nil => simp [List.dropWhile]
  | cons c rest ih =>
    simp only [List.contains_cons, Bool.or_eq_false_iff] at h
    have hc : ¬(c = sep) := by
      intro hcc
      subst hcc
      simp at h
    simp only [List.cons_append, List.dropWhile_cons]
    rw [if_pos (by simpa using hc)]
    exact ih h.2

theorem takeWhile_not_contains {sep : Char} {l : List Char}
    (h : l.contains sep = false) :
    l.takeWhile (fun c => c ≠ sep) = l := by
  induction l with
  | nil => rfl
  | cons c rest ih =>
    simp only [List.contains_cons, Bool.or_eq_false_iff] at h
    have hc : ¬(c = sep) := by
      intro hcc
      subst hcc
      simp at h
    simp only [List.takeWhile_cons]
    rw [if_pos (by simpa using hc)]
    rw [ih h.2]

theorem contains_comma_append (l1 l2 : List Char) :
    (l1 ++ ',' :: l2).contains ',' = true := by
  induction l1 with
  | nil => simp [List.contains_cons]
  | cons c rest ih => simp [List.contains_cons, ih]

theorem commaTail_eq {l1 l2 : List Char} (h1 : l1.contains ',' = false)
    (h2 : l2.contains ',' = false) :
    commaTail (l1 ++ ',' :: l2) = l2 := by
  unfold commaTail
  rw [dropWhile_not_contains h1]
  simp only [List.drop_succ_cons, List.drop_zero]
  exact takeWhile_not_contains h2

theorem stripSelfMarker_self_append (path : List Char) :
    stripSelfMarker ("self:".data ++ path) = path := by
  simp only [stripSelfMarker]
  rfl

theorem startsWithAnyMarker_self_append (path : List Char) :
    startsWithAnyMarker ("self:".data ++ path) = true := by
  simp only [startsWithAnyMarker]
  rw [leadMatch_append]
  rfl

theorem processGo_succ (ref : YVal) (o : List Char → List Char) (n : Nat)
    (value : List Char) :
    processGo ref o (n + 1) value =
      match findSpan value with
      | none => value
      | some (p, ex, s) =>
        let e := if ex.contains ',' then trimChars (commaTail ex) else ex
        if ex.contains ',' && !(startsWithAnyMarker e) then e
        else
          let e2 :=
            match findSpan e with
            | some (p2, g2, s2) =>
              p2 ++ processGo ref o n ('$' :: '{' :: (g2 ++ ['\x7d'])) ++ s2
            | none => e
          match walk ref (splitOnChar '.' (stripSelfMarker e2)) with
          | some (YVal.str v) =>
            processGo ref o n p ++ v ++ processGo ref o n s
          | _ =>
            if extFileValueMatch ('\x7b' :: (e2 ++ ['\x7d'])) then
              o ('\x7b' :: (e2 ++ ['\x7d']))
            else value := rfl

/-- One-step fidelity equation of `process_value` for a value whose span
search succeeds: exactly the recursion performed by the source
(`_process_value`, lines 333–380), with the three recursive calls at their
own arguments. -/
theorem process_value_unfold (ref : YVal) (o : List Char → List Char)
    {value p ex s : List Char} (hfs : findSpan value = some (p, ex, s)) :
    process_value ref o value =
      (let e := if ex.contains ',' then trimChars (commaTail ex) else ex
       if ex.contains ',' && !(startsWithAnyMarker e) then e
       else
         let e2 :=
           match findSpan e with
           | some (p2, g2, s2) =>
             p2 ++ process_value ref o ('$' :: '{' :: (g2 ++ ['\x7d'])) ++ s2
           | none => e
         match walk ref (splitOnChar '.' (stripSelfMarker e2)) with
         | some (YVal.str v) =>
           process_value ref o p ++ v ++ process_value ref o s
         | _ =>
           if extFileValueMatch ('\x7b' :: (e2 ++ ['\x7d'])) then
             o ('\x7b' :: (e2 ++ ['\x7d']))
           else value) := by
  have hlen := findSpan_length hfs
  simp only [process_value]
  have hv : value.length = (p.length + ex.length + s.length + 2) + 1 := by
    omega
  rw [hv, processGo_succ, hfs]
  dsimp only
  by_cases hc : (ex.contains ',' && !(startsWithAnyMarker
      (if ex.contains ',' = true then trimChars (commaTail ex) else ex))) = true
  · rw [if_pos hc, if_pos hc]
  · rw [if_neg hc, if_neg hc]
    have he : (if ex.contains ',' = true then trimChars (commaTail ex)
        else ex).length ≤ ex.length := by
      split
      · exact (trimChars_length_le _).trans (commaTail_length_le ex)
      · exact Nat.le_refl _
    cases hfe : findSpan (if ex.contains ',' = true then
        trimChars (commaTail ex) else ex) with
    | none =>
      dsimp only
      cases hw : walk ref (splitOnChar '.' (stripSelfMarker
          (if ex.contains ',' = true then trimChars (commaTail ex)
           else ex))) with
      | none => rfl
      | some yv =>
        cases yv with
        | str v =>
          rw [processGo_congr ref o (p.length + ex.length + s.length + 2)
              p.length p (by omega) (Nat.le_refl _),
            processGo_congr ref o (p.length + ex.length + s.length + 2)
              s.length s (by omega) (Nat.le_refl _)]
        | map entries => rfl
        | seq items => rfl
    | some t2 =>
      obtain ⟨p2, g2, s2⟩ := t2
      have hlen2 := findSpan_length hfe
      have hspan : ('$' :: '{' :: (g2 ++ ['\x7d'])).length = g2.length + 3 := by
        simp
      dsimp only
      rw [processGo_congr ref o (p.length + ex.length + s.length + 2)
          (('$' :: '{' :: (g2 ++ ['\x7d'])).length) ('$' :: '{' :: (g2 ++ ['\x7d']))
          (by omega) (Nat.le_refl _)]
      cases hw : walk ref (splitOnChar '.' (stripSelfMarker
          (p2 ++ processGo ref o ('$' :: '{' :: (g2 ++ ['\x7d'])).length
            ('$' :: '{' :: (g2 ++ ['\x7d'])) ++ s2))) with
      | none => rfl
      | some yv =>
        cases yv with
        | str v =>
          rw [processGo_congr ref o (p.length + ex.length + s.length + 2)
              p.length p (by omega) (Nat.le_refl _),
            processGo_congr ref o (p.length + ex.length + s.length + 2)
              s.length s (by omega) (Nat.le_refl _)]
        | map entries => rfl
        | seq items => rfl

/-! ## Claim theorems -/

/-- C10: `is_valid()` returns true exactly when the sanitized string splits on
`':'` into exactly six segments and at least one of the last five segments is
non-empty; the first segment is never compared with the literal `"arn"` (the
characterization below does not inspect it); `":::::"` yields the all-empty
sentinel and `is_valid() = false`, while a six-segment string not starting
with `"arn"` (and with non-empty remaining segments) is reported valid. -/
theorem arn_is_valid_characterization :
    (∀ s : String,
      arn_is_valid s =
        (decide ((pySplit ':' (sanitize_arn s)).length = 6) &&
          ((pySplit ':' (sanitize_arn s)).drop 1).any (fun seg => seg != ""))) ∧
    mkARN ":::::" = {} ∧
    arn_is_valid ":::::" = false ∧
    arn_is_valid "xyz:aws:dynamodb:eu-central-1:acc:table/t" = true := by
  refine ⟨?_, by decide, by decide, by decide⟩
  intro s
  unfold arn_is_valid mkARN validate_arn AWSARNDataCls.is_default
  by_cases hl : (pySplit ':' (sanitize_arn s)).length = 6
  · obtain ⟨a, b, c, d, e, f, hdec⟩ := exists_six_of_length_six hl
    rw [hl, hdec]
    simp [Bool.not_and, List.any_cons, bne, Bool.or_assoc]
  · rw [if_neg hl]
    simp [hl]

/-- C5 counterexample: the claim states that *any* string splitting on `':'`
into exactly six segments decomposes into those segments (partition = second
segment, and so on).  The input `arn:aws:s3:#{A::B}` splits into exactly six
colon-separated segments (second segment `"aws"`), yet the constructor first
sanitizes the `#{A::B}` parameter marker, leaving only four segments, so the
ARN decomposes to the all-empty sentinel (partition `"" ≠ "aws"`) and reports
invalid. -/
theorem arn_decomposition_counterexample :
    ((pySplit ':' "arn:aws:s3:#\x7bA::B\x7d").length = 6) ∧
    (pySplit ':' "arn:aws:s3:#\x7bA::B\x7d").getD 1 "" = "aws" ∧
    mkARN "arn:aws:s3:#\x7bA::B\x7d" = {} ∧
    (mkARN "arn:aws:s3:#\x7bA::B\x7d").partition = "" ∧
    arn_is_valid "arn:aws:s3:#\x7bA::B\x7d" = false := by
  refine ⟨by decide, by decide, by decide, by decide, by decide⟩

/-- C5 (amended): ARN decomposition is total (every input yields a data
object, never an exception); a string whose *sanitized* form splits on `':'`
into exactly six segments yields partition, service, region, account_id and
resource_id equal to sanitized segments two through six (so
`arn:aws:dynamodb:eu-central-1:*:table/my-table`, unchanged by sanitization,
gives partition `aws`, service `dynamodb`, region `eu-central-1`, account `*`,
resource_id `table/my-table`), and any string whose sanitized form has a
different number of colon-separated segments (such as `arn::invalid`) yields
the all-empty-field sentinel with `is_valid()` reporting false. -/
theorem arn_decomposition_amended :
    (∀ s : String,
      ((pySplit ':' (sanitize_arn s)).length = 6 →
        mkARN s =
          { partition := (pySplit ':' (sanitize_arn s)).getD 1 "",
            service := (pySplit ':' (sanitize_arn s)).getD 2 "",
            region := (pySplit ':' (sanitize_arn s)).getD 3 "",
            account_id := (pySplit ':' (sanitize_arn s)).getD 4 "",
            resource_id := (pySplit ':' (sanitize_arn s)).getD 5 "" }) ∧
      ((pySplit ':' (sanitize_arn s)).length ≠ 6 →
        mkARN s = {} ∧ arn_is_valid s = false)) ∧
    mkARN "arn:aws:dynamodb:eu-central-1:*:table/my-table" =
      { partition := "aws", service := "dynamodb", region := "eu-central-1",
        account_id := "*", resource_id := "table/my-table" } ∧
    mkARN "arn::invalid" = {} ∧
    arn_is_valid "arn::invalid" = false := by
  refine ⟨?_, by decide, by decide, by decide⟩
  intro s
  constructor
  · intro hl
    unfold mkARN validate_arn
    rw [if_pos hl]
  · intro hl
    unfold arn_is_valid mkARN validate_arn
    rw [if_neg hl]
    exact ⟨rfl, by simp [AWSARNDataCls.is_default]⟩

/-- Witness for `arn_decomposition_amended`: both hypotheses discharged at
concrete inputs. -/
theorem arn_decomposition_amended_witness :
    mkARN "a:b:c:d:e:f" =
      { partition := "b", service := "c", region := "d",
        account_id := "e", resource_id := "f" } ∧
    (mkARN "a:b" = {} ∧ arn_is_valid "a:b" = false) :=
  ⟨(arn_decomposition_amended.1 "a:b:c:d:e:f").1 (by decide),
   (arn_decomposition_amended.1 "a:b").2 (by decide)⟩

/-- C4: for every candidate fragment, resource index and target service,
`get_close_match` returns the first key in the index's insertion order whose
decomposed ARN has its service field equal to the target service and for
which either the fragment equals the ARN's `resource_id` exactly, or the
`resource_id` contains `'/'` and the fragment equals one of its
`'/'`-separated segments (`closeMatchKeyQualifies`, worded from the claim);
when no key qualifies it returns `None`, and when several qualify the
earliest-inserted one — the first found by `List.find?` — is returned. -/
theorem get_close_match_first_match :
    (∀ (frag : String) (d : PermResDict) (svc : String),
      get_close_match frag d svc =
        (d.find? (fun kv => closeMatchKeyQualifies frag svc kv.1)).map Prod.fst) ∧
    (∀ (frag : String) (d : PermResDict) (svc : String),
      (get_close_match frag d svc = none ↔
        ∀ kv ∈ d, closeMatchKeyQualifies frag svc kv.1 = false)) := by
  have main : ∀ (frag : String) (d : PermResDict) (svc : String),
      get_close_match frag d svc =
        (d.find? (fun kv => closeMatchKeyQualifies frag svc kv.1)).map Prod.fst := by
    intro frag d svc
    induction d with
    | nil => rfl
    | cons kv rest ih =>
      obtain ⟨r, ts⟩ := kv
      have hguard : get_close_match frag ((r, ts) :: rest) svc =
          if closeMatchKeyQualifies frag svc r = true then some r
          else get_close_match frag rest svc := rfl
      rw [hguard]
      cases hq : closeMatchKeyQualifies frag svc r with
      | true => simp [List.find?_cons, hq]
      | false => simp [List.find?_cons, hq, ih]
  refine ⟨main, fun frag d svc => ?_⟩
  rw [main frag d svc]
  simp [List.find?_eq_none]

/-- C3: in `analyse_resource_level_permissions`, when the wildcard
short-circuit of the preliminary checks does not fire, the final verdict is
the conjunction of the per-argument results, where the per-argument result
(`resourceArgVerdict`, worded from the claim) is: true for an argument whose
value cannot be obtained or resolved; for a resolvable value with no close
match, false exactly when every resource key of the index is fully resolved
(no `${`) and true when at least one key is not; and the intersection test
for a matched key. -/
theorem analyse_resource_level_permissions_conjunction :
    ∀ (req : Finset String) (d : PermResDict) (svc : String)
      (args : List (Option ASTArg)),
      (lookupA "*" d = none ∨ extract_permission_set "*" d svc ∩ req = ∅) →
      analyse_resource_level_permissions req d svc (some args) =
        (args.map (resourceArgVerdict req d svc)).all id := by
  intro req d svc args hwild
  have hcond : ((lookupA "*" d).isSome &&
      decide (extract_permission_set "*" d svc ∩ req ≠ ∅)) = false := by
    rcases hwild with h | h
    · simp [h]
    · simp [h]
  simp only [analyse_resource_level_permissions, hcond, Bool.false_eq_true,
    if_false]
  exact resource_arg_results_all req d svc args

/-- Witness for `analyse_resource_level_permissions_conjunction`: the
wildcard hypothesis discharged at a concrete index without a `*` key. -/
theorem analyse_resource_level_permissions_conjunction_witness :
    analyse_resource_level_permissions {"GetItem"}
      [("arn:aws:dynamodb:eu-central-1:acc:table/T", {("dynamodb", "GetItem")})]
      "dynamodb" (some [some (ASTArg.strLit "T")]) =
      ([some (ASTArg.strLit "T")].map (resourceArgVerdict {"GetItem"}
        [("arn:aws:dynamodb:eu-central-1:acc:table/T",
          {("dynamodb", "GetItem")})] "dynamodb")).all id :=
  analyse_resource_level_permissions_conjunction _ _ _ _ (Or.inl rfl)

/-- C8 counterexample: the claim states that a well-formed Allow statement
contributes its entries even when a structurally malformed statement appears
earlier in the list.  With a first statement missing its `Action` key
(`Effect: Allow` only) followed by a well-formed Allow statement, both
extraction methods abort inside their single `try/except` and the later
statement's entries are absent from both indexes (contributing
`("s3", "GetObject")` and the resource entry when it is alone). -/
theorem extraction_skips_malformed_counterexample :
    ("s3", "GetObject") ∉
      extract_perm_from_provider (.stmts
        [⟨some "Allow", none, some "r"⟩,
         ⟨some "Allow", some ["s3:GetObject"], some "arn:aws:s3:::b"⟩]) ∧
    ("arn:aws:s3:::b", ResEntry.pair "s3" "GetObject") ∉
      extract_perm_for_resources (.stmts
        [⟨some "Allow", none, some "r"⟩,
         ⟨some "Allow", some ["s3:GetObject"], some "arn:aws:s3:::b"⟩]) ∧
    ("s3", "GetObject") ∈
      extract_perm_from_provider (.stmts
        [⟨some "Allow", some ["s3:GetObject"], some "arn:aws:s3:::b"⟩]) ∧
    ("arn:aws:s3:::b", ResEntry.pair "s3" "GetObject") ∈
      extract_perm_for_resources (.stmts
        [⟨some "Allow", some ["s3:GetObject"], some "arn:aws:s3:::b"⟩]) := by
  refine ⟨by decide, by decide, by decide, by decide⟩

/-- C8 (amended): permission extraction skips statements whose effect is not
`Allow` without aborting (the indexes equal those computed with the Deny
statement removed), and a well-formed Allow statement contributes its
`(service, action)` entries to the service-level index and — when it names a
resource — its entries to the resource-level index, provided every earlier
statement is processable without raising (Deny, or Allow with a present,
splittable action list); a structurally malformed statement aborts the
remainder of that extraction (keeping entries already accumulated) rather
than being skipped. -/
theorem extraction_skips_deny_amended :
    (∀ (pre post : List Stmt) (den : Stmt) (eff : String),
      den.effect = some eff → eff ≠ "Allow" →
      extract_perm_from_provider (.stmts (pre ++ den :: post)) =
        extract_perm_from_provider (.stmts (pre ++ post)) ∧
      extract_perm_for_resources (.stmts (pre ++ den :: post)) =
        extract_perm_for_resources (.stmts (pre ++ post))) ∧
    (∀ (pre post : List Stmt) (good : Stmt) (perms : List String) (a : String)
      (sa : String × String),
      (∀ s ∈ pre, stmtOk s = true) →
      good.effect = some "Allow" → good.action = some perms →
      (∀ p ∈ perms, (split_service_action p).isSome = true) →
      a ∈ perms → split_service_action a = some sa →
      sa ∈ extract_perm_from_provider (.stmts (pre ++ good :: post)) ∧
      (∀ res, good.resource = some res →
        (res, ResEntry.pair sa.1 sa.2) ∈
          extract_perm_for_resources (.stmts (pre ++ good :: post)))) := by
  constructor
  · intro pre post den eff hden hne
    exact ⟨extract_stmts_provider_deny pre post den eff ∅ hden hne,
      extract_stmts_resources_deny pre post den eff ∅ hden hne⟩
  · intro pre post good perms a sa hok heff hact hsplit ha hsa
    refine ⟨extract_stmts_provider_contrib pre post good perms a sa ∅ hok heff
      hact hsplit ha hsa, fun res hres => ?_⟩
    exact extract_stmts_resources_contrib pre post good perms a res sa ∅ hok
      heff hact hres hsplit ha hsa

/-- Witness for `extraction_skips_deny_amended`: all hypotheses discharged on
a concrete statement list (a Deny statement, then a well-formed Allow). -/
theorem extraction_skips_deny_amended_witness :
    (extract_perm_from_provider (.stmts
        ([] ++ ⟨some "Deny", some ["s3:PutObject"], some "r"⟩ ::
          [⟨some "Allow", some ["dynamodb:PutItem"], some "t"⟩])) =
      extract_perm_from_provider (.stmts
        ([] ++ [⟨some "Allow", some ["dynamodb:PutItem"], some "t"⟩])) ∧
      extract_perm_for_resources (.stmts
        ([] ++ ⟨some "Deny", some ["s3:PutObject"], some "r"⟩ ::
          [⟨some "Allow", some ["dynamodb:PutItem"], some "t"⟩])) =
      extract_perm_for_resources (.stmts
        ([] ++ [⟨some "Allow", some ["dynamodb:PutItem"], some "t"⟩]))) ∧
    ("dynamodb", "PutItem") ∈
      extract_perm_from_provider (.stmts
        ([⟨some "Deny", some ["s3:PutObject"], some "r"⟩] ++
          ⟨some "Allow", some ["dynamodb:PutItem"], some "t"⟩ :: [])) := by
  constructor
  · exact extraction_skips_deny_amended.1 []
      [⟨some "Allow", some ["dynamodb:PutItem"], some "t"⟩]
      ⟨some "Deny", some ["s3:PutObject"], some "r"⟩ "Deny" rfl (by decide)
  · exact (extraction_skips_deny_amended.2
      [⟨some "Deny", some ["s3:PutObject"], some "r"⟩] []
      ⟨some "Allow", some ["dynamodb:PutItem"], some "t"⟩
      ["dynamodb:PutItem"] "dynamodb:PutItem" ("dynamodb", "PutItem")
      (by decide) rfl rfl (by decide) (by decide) (by decide)).1

/-- C1: whenever the plugin information contains no extracted content
(`is_empty`, modelled from the spec because the method is absent from the
sources), or the handler name is Python `None`, `analyse_api_permissions`
returns true iff the required actions intersect the service-action set; in
particular required actions `{PutItem}` (of service dynamodb) against
service actions `{GetItem, PutItem}` yield `allow = true`, and against
`{GetItem}` yield `allow = false`. -/
theorem analyse_api_permissions_basic :
    (∀ (required_api_permissions service_permissions : Finset String)
      (service_name : String) (plugin_info : PluginExtractedInfo)
      (handler_name : Option String),
      plugin_info.is_empty = true ∨ handler_name = none →
      analyse_api_permissions required_api_permissions service_permissions
        service_name plugin_info handler_name =
        some (decide (required_api_permissions ∩ service_permissions ≠ ∅))) ∧
    analyse_api_permissions {"PutItem"} {"GetItem", "PutItem"} "dynamodb"
      ⟨none, none⟩ (some "handler") = some true ∧
    analyse_api_permissions {"PutItem"} {"GetItem"} "dynamodb"
      ⟨none, none⟩ (some "handler") = some false := by
  refine ⟨?_, by decide, by decide⟩
  intro req svc_perms svc pi h hcase
  rcases hcase with he | hn
  · simp [analyse_api_permissions, he]
  · subst hn
    simp [analyse_api_permissions]

/-- Witness for `analyse_api_permissions_basic`: the hypothesis discharged
with a `None` handler and a non-empty plugin structure. -/
theorem analyse_api_permissions_basic_witness :
    analyse_api_permissions {"PutItem"} {"GetItem", "PutItem"} "dynamodb"
      ⟨some [], some []⟩ none =
      some (decide ((({"PutItem"} : Finset String) ∩
        {"GetItem", "PutItem"}) ≠ ∅)) :=
  analyse_api_permissions_basic.1 _ _ _ _ _ (Or.inr rfl)

/-- C7: for the s3 service, the service predicate equals the conjunction of
the configured rules (each prefix rule a starts-with test, each suffix rule
an ends-with test, true when no rule data exists for the handler); the call
verdict of `analyse_event_filtering` is the conjunction of the per-argument
verdicts (`s3ArgVerdict`, worded from the claim), and an absent filtering
specification yields true.  With prefix rule `uploads/` and suffix rule
`.txt`, input `uploads/my-file.txt` passes while `uploads/my-file.jpg` and
`upload-folder/my-file.txt` fail. -/
theorem event_filtering_s3_characterization :
    (∀ (input : String) (infra : InfraDict) (handler : String),
      s3_event_filtering_proc_func input infra handler =
        match s3_filtering_rules infra handler with
        | none => true
        | some rules => rules.all (s3RuleSatisfied input)) ∧
    (∀ (service : String) (infra : InfraDict) (handler : String),
      analyse_event_filtering service none infra handler = some true) ∧
    (∀ (infra : InfraDict) (handler : String) (args : List (Option FilterArg)),
      analyse_event_filtering "s3" (some args) infra handler =
        some ((args.filterMap (s3ArgVerdict infra handler)).all id)) ∧
    (s3_event_filtering_proc_func "uploads/my-file.txt"
      ⟨some [("onS3Upload", ⟨some [⟨some ⟨some [⟨some "uploads/", none⟩,
        ⟨none, some ".txt"⟩]⟩⟩]⟩)]⟩ "onS3Upload" = true ∧
     s3_event_filtering_proc_func "uploads/my-file.jpg"
      ⟨some [("onS3Upload", ⟨some [⟨some ⟨some [⟨some "uploads/", none⟩,
        ⟨none, some ".txt"⟩]⟩⟩]⟩)]⟩ "onS3Upload" = false ∧
     s3_event_filtering_proc_func "upload-folder/my-file.txt"
      ⟨some [("onS3Upload", ⟨some [⟨some ⟨some [⟨some "uploads/", none⟩,
        ⟨none, some ".txt"⟩]⟩⟩]⟩)]⟩ "onS3Upload" = false) := by
  refine ⟨?_, fun _ _ _ => rfl, ?_, by decide, by decide, by decide⟩
  · intro input infra handler
    cases hr : s3_filtering_rules infra handler <;>
      simp [s3_event_filtering_proc_func, hr, s3RuleChecks_all]
  · intro infra handler args
    simp [analyse_event_filtering, eventFilteringResults_s3]

/-- C9 counterexample: the claim states that event-filter evaluation of a
call whose service has no registered service-specific processing function
still returns a boolean verdict to its caller; with an unmodeled service
(`dynamodb`) and a literal filtering-relevant argument, the dispatch
`self.proc_func_dict[self.service_name]` raises `KeyError`, which propagates
out of `analyse_event_filtering` (`none`, no boolean verdict). -/
theorem event_filtering_unmodeled_counterexample :
    analyse_event_filtering "dynamodb" (some [some (FilterArg.constStr "k")])
      ⟨none⟩ "handler" = none := by decide

/-- C9 (amended): a manifest plugin absent from the model table is warned
about and skipped, and processing continues with the remaining plugins;
event-filter evaluation returns a boolean without consulting the dispatch
table when the filtering specification is absent or when an argument's
variable cannot be resolved, but an argument with a resolved value for a
service with no registered processing function raises `KeyError` out of
`analyse_event_filtering` to its caller (which is outside this engine). -/
theorem plugin_and_service_not_modeled_amended :
    (∀ (pre post : List String) (p : String), p ∉ plugin_models_keys →
      process_all_plugins (pre ++ p :: post) =
        process_all_plugins (pre ++ post)) ∧
    (∀ (service : String) (infra : InfraDict) (handler : String),
      analyse_event_filtering service none infra handler = some true) ∧
    (∀ (service ident : String) (infra : InfraDict) (handler : String),
      analyse_event_filtering service
        (some [some (FilterArg.name ident none)]) infra handler = some true) ∧
    (∀ (service s : String) (infra : InfraDict) (handler : String)
      (rest : List (Option FilterArg)), service ≠ "s3" →
      analyse_event_filtering service
        (some (some (FilterArg.constStr s) :: rest)) infra handler = none) := by
  have hmode2 : ("unresolved" : String) ≠ "resolved" := by decide
  have hmode1 : ("resolved" : String) ≠ "unresolved" := by decide
  refine ⟨process_all_plugins_skip, fun _ _ _ => rfl, ?_, ?_⟩
  · intro service ident infra handler
    simp [analyse_event_filtering, eventFilteringResults,
      get_event_filtering_result, hmode2]
  · intro service s infra handler rest hsvc
    simp [analyse_event_filtering, eventFilteringResults,
      get_event_filtering_result, hmode1, hsvc]

/-- C6: for every template expression `${primary, fallback}` whose fallback
branch is a `self:`-prefixed dotted path present in the reference tree,
resolution returns the reference tree's value at that dotted path — the
primary branch (any comma-free text) never contributes; in particular
`${opt:X, self:custom.defaultY}` resolves to the tree's value at
`custom.defaultY`. -/
theorem fallback_resolution :
    (∀ (ref : YVal) (oracle : List Char → List Char)
      (primary fb path v : List Char),
      findSpan ('$' :: '{' :: ((primary ++ ',' :: fb) ++ ['\x7d'])) =
        some ([], primary ++ ',' :: fb, []) →
      primary.contains ',' = false →
      fb.contains ',' = false →
      trimChars fb = "self:".data ++ path →
      findSpan ("self:".data ++ path) = none →
      walk ref (splitOnChar '.' path) = some (.str v) →
      process_value ref oracle
        ('$' :: '{' :: ((primary ++ ',' :: fb) ++ ['\x7d'])) = v) ∧
    process_value
      (.map [("custom".data, .map [("defaultY".data, .str "Z".data)])]) id
      "$\x7bopt:X, self:custom.defaultY\x7d".data = "Z".data := by
  constructor
  · intro ref oracle primary fb path v hfs hp hf htrim hnest hwalk
    have hlen := findSpan_length hfs
    have hcomma : (primary ++ ',' :: fb).contains ',' = true :=
      contains_comma_append primary fb
    have hsw : startsWithAnyMarker ('s' :: 'e' :: 'l' :: 'f' :: ':' :: path) =
        true := startsWithAnyMarker_self_append path
    have hstrip : stripSelfMarker ('s' :: 'e' :: 'l' :: 'f' :: ':' :: path) =
        path := stripSelfMarker_self_append path
    have hnest2 : findSpan ('s' :: 'e' :: 'l' :: 'f' :: ':' :: path) = none :=
      hnest
    have htrim2 : trimChars fb = 's' :: 'e' :: 'l' :: 'f' :: ':' :: path :=
      htrim
    simp only [process_value]
    have hv : ('$' :: '{' :: ((primary ++ ',' :: fb) ++ ['\x7d'])).length =
        ((primary ++ ',' :: fb).length + 2) + 1 := by
      rw [hlen]
      simp
    rw [hv, processGo_succ, hfs]
    dsimp only
    rw [hcomma]
    simp only [if_true, commaTail_eq hp hf, htrim2, hsw, Bool.not_true,
      Bool.and_false, Bool.false_eq_true, if_false, hnest2, hstrip, hwalk]
    rw [processGo_congr ref oracle ((primary ++ ',' :: fb).length + 2) 0 []
      (by simp) (by simp)]
    simp [processGo]
  · decide

/-- Witness for `fallback_resolution`: all hypotheses discharged at the
claim's own example. -/
theorem fallback_resolution_witness :
    process_value
      (.map [("custom".data, .map [("defaultY".data, .str "Z".data)])]) id
      ('$' :: '{' :: (("opt:X".data ++ ',' :: " self:custom.defaultY".data) ++
        ['\x7d'])) = "Z".data :=
  fallback_resolution.1 _ id "opt:X".data " self:custom.defaultY".data
    "custom.defaultY".data "Z".data (by decide) (by decide) (by decide)
    (by decide) (by decide) rfl

/-- C2 counterexample: the claim states that a string containing two
disjoint `${...}` spans, each individually resolvable against the reference
tree, has both spans replaced.  With the tree `{x: X, y: Y}` the spans of
`a${self:x}b${self:y}c` are individually resolvable (second and third
conjuncts) yet one resolution pass returns the string *unchanged*: the
greedy regex `\$\{(.*)\}` captures `self:x}b${self:y` as one expression,
which fails to resolve, and the whole value is returned as-is — not
`aXbYc`. -/
theorem process_value_two_spans_counterexample :
    process_value (.map [("x".data, .str "X".data), ("y".data, .str "Y".data)])
      id "a$\x7bself:x\x7db$\x7bself:y\x7dc".data =
      "a$\x7bself:x\x7db$\x7bself:y\x7dc".data ∧
    process_value (.map [("x".data, .str "X".data), ("y".data, .str "Y".data)])
      id "$\x7bself:x\x7d".data = "X".data ∧
    process_value (.map [("x".data, .str "X".data), ("y".data, .str "Y".data)])
      id "$\x7bself:y\x7d".data = "Y".data ∧
    "a$\x7bself:x\x7db$\x7bself:y\x7dc".data ≠ "aXbYc".data := by
  refine ⟨by decide, by decide, by decide, by decide⟩

/-- C2 (amended): resolution finds the first `${` and matches greedily to
the *last* `}` of its newline-free window; when that combined (comma-free,
nested-span-free) expression resolves through the reference tree to a string
`v`, the result is `resolve(prefix) ++ v ++ resolve(suffix)`; when it does
not resolve and is not an external-file reference, the whole input is
returned unchanged — so a string with two disjoint spans keeps both spans
when the combined greedy expression fails to resolve, their individual
resolvability notwithstanding. -/
theorem process_value_greedy_amended :
    (∀ (ref : YVal) (oracle : List Char → List Char)
      (value p ex s v : List Char),
      findSpan value = some (p, ex, s) →
      ex.contains ',' = false →
      findSpan ex = none →
      walk ref (splitOnChar '.' (stripSelfMarker ex)) = some (.str v) →
      process_value ref oracle value =
        process_value ref oracle p ++ v ++ process_value ref oracle s) ∧
    (∀ (ref : YVal) (oracle : List Char → List Char)
      (value p ex s : List Char),
      findSpan value = some (p, ex, s) →
      ex.contains ',' = false →
      findSpan ex = none →
      walk ref (splitOnChar '.' (stripSelfMarker ex)) = none →
      extFileValueMatch ('\x7b' :: (ex ++ ['\x7d'])) = false →
      process_value ref oracle value = value) := by
  constructor
  · intro ref oracle value p ex s v hfs hcomma hnest hwalk
    have hlen := findSpan_length hfs
    simp only [process_value]
    have hv : value.length = (p.length + ex.length + s.length + 2) + 1 := by
      omega
    rw [hv, processGo_succ, hfs]
    dsimp only
    rw [hcomma]
    simp only [Bool.false_and, Bool.false_eq_true, if_false]
    rw [hnest]
    dsimp only
    rw [hwalk]
    dsimp only
    rw [processGo_congr ref oracle (p.length + ex.length + s.length + 2)
        p.length p (by omega) (Nat.le_refl _),
      processGo_congr ref oracle (p.length + ex.length + s.length + 2)
        s.length s (by omega) (Nat.le_refl _)]
  · intro ref oracle value p ex s hfs hcomma hnest hwalk hext
    have hlen := findSpan_length hfs
    simp only [process_value]
    have hv : value.length = (p.length + ex.length + s.length + 2) + 1 := by
      omega
    rw [hv, processGo_succ, hfs]
    dsimp only
    rw [hcomma]
    simp only [Bool.false_and, Bool.false_eq_true, if_false]
    rw [hnest]
    dsimp only
    rw [hwalk]
    dsimp only
    rw [hext]
    simp

/-- Witness for `process_value_greedy_amended`: both parts applied at
concrete inputs with all hypotheses discharged. -/
theorem process_value_greedy_amended_witness :
    process_value (.map [("x".data, .str "X".data)]) id
      "a$\x7bself:x\x7db".data = "aXb".data ∧
    process_value (.map [("x".data, .str "X".data)]) id
      "$\x7bself:q\x7d".data = "$\x7bself:q\x7d".data := by
  constructor
  · have h := process_value_greedy_amended.1
      (.map [("x".data, .str "X".data)]) id "a$\x7bself:x\x7db".data
      "a".data "self:x".data "b".data "X".data
      (by decide) (by decide) (by decide) rfl
    rw [h]
    decide
  · exact process_value_greedy_amended.2
      (.map [("x".data, .str "X".data)]) id "$\x7bself:q\x7d".data
      [] "self:q".data [] (by decide) (by decide) (by decide) rfl
      (by decide)

/-- Witness for `plugin_and_service_not_modeled_amended`: hypotheses
discharged at a concrete plugin list and a concrete unmodeled service. -/
theorem plugin_and_service_not_modeled_amended_witness :
    process_all_plugins
        (["serverless-iam-roles-per-function"] ++ "unknown-plugin" :: []) =
      process_all_plugins (["serverless-iam-roles-per-function"] ++ []) ∧
    analyse_event_filtering "dynamodb"
      (some (some (FilterArg.constStr "v") :: [])) ⟨none⟩ "h" = none :=
  ⟨plugin_and_service_not_modeled_amended.1 _ _ _ (by decide),
   plugin_and_service_not_modeled_amended.2.2.2 "dynamodb" "v" ⟨none⟩ "h" []
     (by decide)⟩

end Cloudflow
